import Mathlib

/-!
Shallow embedding of the SKB baryon demo's numeric kernels and a
verification of the specification's claims about them.

Sources embedded (machine floats are idealised as real numbers;
mutable `Map` caches are threaded as explicit association lists):
* `app/components/fluid-dynamics-engine.tsx`
  (`SimplePerlinNoise`, `FluidDynamicsEngine`);
* `app/components/color-confinement-engine.tsx`
  (`ColorConfinementEngine`);
* `app/components/enhanced-three-js-visualization.tsx` (`kleinBottle`);
* `app/lib/fluid-dynamics-types.ts` (parameter records).
-/

noncomputable section

namespace Baryon

open Real

/-- `THREE.Vector3`: a 3-component real vector. -/
structure Vec3 where
  x : ℝ
  y : ℝ
  z : ℝ

/-- `THREE.Vector3.add`. -/
def Vec3.add (a b : Vec3) : Vec3 := ⟨a.x + b.x, a.y + b.y, a.z + b.z⟩

/-- `THREE.Vector3.sub`. -/
def Vec3.sub (a b : Vec3) : Vec3 := ⟨a.x - b.x, a.y - b.y, a.z - b.z⟩

/-- `THREE.Vector3.multiplyScalar`. -/
def Vec3.smul (a : Vec3) (s : ℝ) : Vec3 := ⟨a.x * s, a.y * s, a.z * s⟩

/-- `THREE.Vector3.length`: `sqrt(x*x + y*y + z*z)`. -/
def Vec3.length (a : Vec3) : ℝ := Real.sqrt (a.x * a.x + a.y * a.y + a.z * a.z)

/-- `THREE.Vector3.distanceTo`. -/
def Vec3.distanceTo (a b : Vec3) : ℝ := (a.sub b).length

/-- `THREE.Vector3.normalize`: `divideScalar(length() || 1)` — three.js
guards the zero vector by dividing by 1, so it stays the zero vector. -/
def Vec3.normalize (a : Vec3) : Vec3 :=
  a.smul (1 / (if a.length = 0 then 1 else a.length))

/-- `THREE.Vector3.lerp(v, alpha)`: `this += (v - this) * alpha` componentwise. -/
def Vec3.lerpV (a b : Vec3) (t : ℝ) : Vec3 :=
  ⟨a.x + (b.x - a.x) * t, a.y + (b.y - a.y) * t, a.z + (b.z - a.z) * t⟩

namespace SimplePerlinNoise

/-- `fade(t) = t*t*t*(t*(t*6-15)+10)`. -/
def fade (t : ℝ) : ℝ := t * t * t * (t * (t * 6 - 15) + 10)

/-- `lerp(a,b,t) = a + t*(b-a)`. -/
def lerp (a b t : ℝ) : ℝ := a + t * (b - a)

/-- `grad(hash,x,y,z)`: `hash & 15` selects one of the 12 edge gradients
(with 4 duplicates); `h & 1` / `h & 2` are the sign bits. -/
def grad (hash : ℕ) (x y z : ℝ) : ℝ :=
  let h := hash % 16
  let u := if h < 8 then x else y
  let v := if h < 4 then y else if h = 12 ∨ h = 14 then x else z
  (if h % 2 = 0 then u else -u) + (if h / 2 % 2 = 0 then v else -v)

/-- The shuffled permutation array: `pt` models entries `0..255`; the
constructor extends it by `permutation[256+i] = permutation[i]`, so the
512-entry array reads `pt (i % 256)`.  `IsShuffle` says the table is a
Fisher–Yates result: a bijection of `{0..255}`. -/
def IsShuffle (pt : ℕ → ℕ) : Prop :=
  (∀ i, i < 256 → pt i < 256) ∧
    (∀ i j, i < 256 → j < 256 → pt i = pt j → i = j)

/-- `noise3D`, with lattice coordinates via `Math.floor(x) & 255`
(idealised: `(⌊x⌋ % 256).toNat`, which matches JS two's-complement
masking for every integer) and all table reads written as total reads
of the extended array. -/
def noise3D (pt : ℕ → ℕ) (x y z : ℝ) : ℝ :=
  let X : ℕ := (⌊x⌋ % 256).toNat
  let Y : ℕ := (⌊y⌋ % 256).toNat
  let Z : ℕ := (⌊z⌋ % 256).toNat
  let xf : ℝ := x - ⌊x⌋
  let yf : ℝ := y - ⌊y⌋
  let zf : ℝ := z - ⌊z⌋
  let u := fade xf
  let v := fade yf
  let w := fade zf
  let p : ℕ → ℕ := fun i => pt (i % 256)
  let A := p X + Y
  let AA := p A + Z
  let AB := p (A + 1) + Z
  let B := p (X + 1) + Y
  let BA := p B + Z
  let BB := p (B + 1) + Z
  lerp
    (lerp (lerp (grad (p AA) xf yf zf) (grad (p BA) (xf - 1) yf zf) u)
          (lerp (grad (p AB) xf (yf - 1) zf) (grad (p BB) (xf - 1) (yf - 1) zf) u)
          v)
    (lerp (lerp (grad (p (AA + 1)) xf yf (zf - 1)) (grad (p (BA + 1)) (xf - 1) yf (zf - 1)) u)
          (lerp (grad (p (AB + 1)) xf (yf - 1) (zf - 1))
                (grad (p (BB + 1)) (xf - 1) (yf - 1) (zf - 1)) u)
          v)
    w

/-- `noise2D(x,y) = noise3D(x,y,0)`. -/
def noise2D (pt : ℕ → ℕ) (x y : ℝ) : ℝ := noise3D pt x y 0

/-- The fourteen indices at which `noise3D(x,y,z)` reads the (512-entry)
extended permutation array, in source order: `p[X]`, `p[A]`, `p[A+1]`,
`p[X+1]`, `p[B]`, `p[B+1]`, then the eight corner-hash reads. -/
def probedIndices (pt : ℕ → ℕ) (x y z : ℝ) : List ℕ :=
  let X : ℕ := (⌊x⌋ % 256).toNat
  let Y : ℕ := (⌊y⌋ % 256).toNat
  let Z : ℕ := (⌊z⌋ % 256).toNat
  let p : ℕ → ℕ := fun i => pt (i % 256)
  let A := p X + Y
  let AA := p A + Z
  let AB := p (A + 1) + Z
  let B := p (X + 1) + Y
  let BA := p B + Z
  let BB := p (B + 1) + Z
  [X, A, A + 1, X + 1, B, B + 1, AA, BA, AB, BB, AA + 1, BA + 1, AB + 1, BB + 1]

/-- A concrete reachable Fisher–Yates outcome, written as the identity
modified on a few explicit disjoint cycles.  It realises corner-hash
values that push the interpolated noise above `1`. -/
def permTable (i : ℕ) : ℕ :=
  if i = 0 then 10 else if i = 10 then 100 else if i = 100 then 0
  else if i = 1 then 20 else if i = 20 then 120 else if i = 120 then 8
  else if i = 8 then 1
  else if i = 11 then 110 else if i = 110 then 4 else if i = 4 then 11
  else if i = 21 then 130 else if i = 130 then 25 else if i = 25 then 21
  else if i = 101 then 16 else if i = 16 then 101
  else if i = 111 then 22 else if i = 22 then 111
  else if i = 121 then 26 else if i = 26 then 121
  else if i = 131 then 23 else if i = 23 then 131
  else i

/-- The inverse of `permTable` (cycles reversed), used to certify that
`permTable` is a bijection of `{0..255}`. -/
def permTableInv (i : ℕ) : ℕ :=
  if i = 10 then 0 else if i = 100 then 10 else if i = 0 then 100
  else if i = 20 then 1 else if i = 120 then 20 else if i = 8 then 120
  else if i = 1 then 8
  else if i = 110 then 11 else if i = 4 then 110 else if i = 11 then 4
  else if i = 130 then 21 else if i = 25 then 130 else if i = 21 then 25
  else if i = 16 then 101 else if i = 101 then 16
  else if i = 22 then 111 else if i = 111 then 22
  else if i = 26 then 121 else if i = 121 then 26
  else if i = 23 then 131 else if i = 131 then 23
  else i

end SimplePerlinNoise

/-- `FluidDynamicsParameters` from `lib/fluid-dynamics-types.ts`.
`interaction_vecs` entries are optional because the engine null-checks
each entry (`if (vec && ...)`); `smoothingIterations` is an iteration
count. -/
structure FluidDynamicsParameters where
  fluidityStrength : ℝ
  softness : ℝ
  dynamic_deform : ℝ
  interaction_vecs : List (Option Vec3)
  tension_scalar : ℝ
  proximityInfluence : ℝ
  proximityThreshold : ℝ
  forceDecayRate : ℝ
  perlinNoiseScale : ℝ
  perlinTimeSpeed : ℝ
  wiggleAmplitude : ℝ
  wiggleFrequency : ℝ
  blendingIntensity : ℝ
  vertexInterpolationRate : ℝ
  smoothingIterations : ℕ
  viscosityFactor : ℝ
  elasticRestoring : ℝ
  dampingCoefficient : ℝ

/-- `KleinBottleSurfaceParams` from `lib/fluid-dynamics-types.ts`
(`rotationAngle` is optional and defaults to 0 at the destructuring). -/
structure KleinBottleSurfaceParams where
  u : ℝ
  v : ℝ
  scale : ℝ
  offset : Vec3
  rotationAngle : ℝ
  dynamic_deform : ℝ
  interaction_vecs : List (Option Vec3)
  tension_scalar : ℝ
  time : ℝ
  noiseOffset : Vec3
  wigglePhase : ℝ

/-- `ProximityResult` from `lib/fluid-dynamics-types.ts`. -/
structure ProximityResult where
  distance : ℝ
  direction : Vec3
  influence : ℝ
  forceVector : Vec3

namespace FluidDynamicsEngine

open SimplePerlinNoise

/-- The base Klein bottle geometry of
`generateFluidKleinBottleSurface` (lines computing `x`, `y`, `z`). -/
def baseKleinPoint (u v scale : ℝ) : Vec3 :=
  ⟨(2 + Real.cos (u / 2) * Real.sin v - Real.sin (u / 2) * Real.sin (2 * v)) *
      Real.cos u * scale,
   (2 + Real.cos (u / 2) * Real.sin v - Real.sin (u / 2) * Real.sin (2 * v)) *
      Real.sin u * scale,
   (Real.sin (u / 2) * Real.sin v + Real.cos (u / 2) * Real.sin (2 * v)) * scale⟩

/-- The base-rotation block: `if (rotationAngle !== 0)` rotate `(x,y)`. -/
def rotateXY (p : Vec3) (rotationAngle : ℝ) : Vec3 :=
  if rotationAngle ≠ 0 then
    ⟨p.x * Real.cos rotationAngle - p.y * Real.sin rotationAngle,
     p.x * Real.sin rotationAngle + p.y * Real.cos rotationAngle, p.z⟩
  else p

/-- One pass of the `interaction_vecs.forEach` loop: a proximity-based
pull toward `vec`, skipped for null or zero-length vectors. -/
def interactionStep (dynamic_deform : ℝ) (position : Vec3) (ov : Option Vec3) : Vec3 :=
  match ov with
  | none => position
  | some vec =>
    if 0 < vec.length then
      let influence := Real.exp (-(position.distanceTo vec) * 0.5) * dynamic_deform
      let direction := (vec.sub position).normalize
      position.add (direction.smul (influence * 0.2))
    else position

/-- One pass of the `interactionVecs.forEach` loop of
`calculateLocalBulging`, accumulating `closenessInfluence * 0.15`. -/
def bulgingStep (position : Vec3) (intensity : ℝ) (acc : ℝ) (ov : Option Vec3) : ℝ :=
  match ov with
  | none => acc
  | some vec =>
    if 0 < vec.length then
      acc + Real.exp (-(position.distanceTo vec) * 2) * intensity * 0.15
    else acc

/-- `FluidDynamicsEngine.calculateLocalBulging`: the accumulated
closeness influence, capped at `intensity * 0.3`. -/
def calculateLocalBulging (position : Vec3) (interactionVecs : List (Option Vec3))
    (intensity : ℝ) : ℝ :=
  min (interactionVecs.foldl (bulgingStep position intensity) 0) (intensity * 0.3)

/-- Base geometry plus the rotation block of
`generateFluidKleinBottleSurface`. -/
def stageBase (params : KleinBottleSurfaceParams) : Vec3 :=
  rotateXY (baseKleinPoint params.u params.v params.scale) params.rotationAngle

/-- The sinusoidal distortion block (`if (dynamic_deform > 0)`). -/
def stageSine (params : KleinBottleSurfaceParams) (p : Vec3) : Vec3 :=
  if 0 < params.dynamic_deform then
    p.add ⟨Real.sin (params.u * 3 + params.time * 2) * params.dynamic_deform * 0.3,
           Real.cos (params.v * 2 + params.time * 1.5) * params.dynamic_deform * 0.3,
           Real.sin (params.u + params.v + params.time) * params.dynamic_deform * 0.2⟩
  else p

/-- The `interaction_vecs.forEach` block. -/
def stageInteraction (params : KleinBottleSurfaceParams) (p : Vec3) : Vec3 :=
  params.interaction_vecs.foldl (interactionStep params.dynamic_deform) p

/-- The local bulging block: `position *= (1 + bulgingFactor)`. -/
def stageBulge (params : KleinBottleSurfaceParams) (p : Vec3) : Vec3 :=
  p.smul (1 + calculateLocalBulging p params.interaction_vecs params.dynamic_deform)

/-- The surface tension block (`if (tension_scalar > 0)`). -/
def stageTension (params : KleinBottleSurfaceParams) (p : Vec3) : Vec3 :=
  if 0 < params.tension_scalar then
    p.add ⟨Real.sin params.u * params.tension_scalar * 0.1,
           Real.cos params.v * params.tension_scalar * 0.1, 0⟩
  else p

/-- The time-varying Perlin warping block. -/
def stageNoise (pt : ℕ → ℕ) (params : KleinBottleSurfaceParams) (p : Vec3) : Vec3 :=
  p.add ⟨noise3D pt ((p.x + params.noiseOffset.x) * 0.5) ((p.y + params.noiseOffset.y) * 0.5)
        ((p.z + params.noiseOffset.z) * 0.5 + params.time * 0.3) *
      params.dynamic_deform * 0.4,
    noise3D pt (p.x * 0.3) (p.y * 0.3) (params.time * 0.5) * params.dynamic_deform * 0.3,
    noise3D pt (p.z * 0.4) (params.time * 0.4) (p.x * 0.2) * params.dynamic_deform * 0.2⟩

/-- The per-sub-SKB wiggle block. -/
def stageWiggle (params : KleinBottleSurfaceParams) (p : Vec3) : Vec3 :=
  p.add ⟨Real.sin (params.wigglePhase + params.time * 3) * params.dynamic_deform * 0.2,
    Real.cos (params.wigglePhase * 1.3 + params.time * 2.5) * params.dynamic_deform * 0.2,
    Real.sin (params.wigglePhase * 0.7 + params.time * 1.8) * params.dynamic_deform * 0.15⟩

/-- `FluidDynamicsEngine.generateFluidKleinBottleSurface`: the source
mutates `position` through the blocks in this order — base geometry and
rotation, sinusoidal distortion, interaction pulls, local bulging,
tension smoothing, Perlin warping, wiggle — and finally adds the
offset. -/
def generateFluidKleinBottleSurface (pt : ℕ → ℕ)
    (params : KleinBottleSurfaceParams) : Vec3 :=
  (stageWiggle params (stageNoise pt params (stageTension params (stageBulge params
      (stageInteraction params (stageSine params (stageBase params))))))).add
    params.offset

/-- The undeformed base surface point corresponding to
`generateFluidKleinBottleSurface`: base geometry, rotation and the final
offset, with every deformation stage disabled. -/
def baseSurfacePoint (params : KleinBottleSurfaceParams) : Vec3 :=
  (stageBase params).add params.offset

/-- The influence a neighbour at distance `distance` contributes in
`calculateProximityPhysics`: `0` outside the threshold, otherwise
`(1 - d/threshold) * proximityInfluence * forceDecayRate^d`. -/
def proximityInfluenceOf (params : FluidDynamicsParameters) (distance : ℝ) : ℝ :=
  if distance < params.proximityThreshold then
    (1 - distance / params.proximityThreshold) * params.proximityInfluence *
      params.forceDecayRate ^ distance
  else 0

/-- The `(i,j)` entry built by `calculateProximityPhysics`; `none` models
the hole the source leaves at `i = j` (`if (i === j) continue`). -/
def proximityEntry (positions : List Vec3) (params : FluidDynamicsParameters)
    (i j : ℕ) : Option ProximityResult :=
  if i = j then none
  else
    let a := positions.getD i ⟨0, 0, 0⟩
    let b := positions.getD j ⟨0, 0, 0⟩
    let distance := a.distanceTo b
    let direction := (b.sub a).normalize
    let influence := proximityInfluenceOf params distance
    some { distance := distance, direction := direction, influence := influence,
           forceVector := direction.smul influence }

/-- `FluidDynamicsEngine.calculateProximityPhysics`: the nested result
arrays. -/
def calculateProximityPhysics (positions : List Vec3)
    (params : FluidDynamicsParameters) : List (List (Option ProximityResult)) :=
  (List.range positions.length).map fun i =>
    (List.range positions.length).map fun j => proximityEntry positions params i j

/-- `FluidDynamicsEngine.easeInOutCubic`. -/
def easeInOutCubic (t : ℝ) : ℝ :=
  if t < 0.5 then 4 * t * t * t else 1 - (-2 * t + 2) ^ 3 / 2

/-- `FluidDynamicsEngine.calculateBlendingFactor`: clamp to `[0,1]`, then
the smoothstep S-curve (the `params` argument is unused in the source). -/
def calculateBlendingFactor (progress : ℝ) (params : FluidDynamicsParameters) : ℝ :=
  let normalizedProgress := max 0 (min 1 progress)
  normalizedProgress * normalizedProgress * (3 - 2 * normalizedProgress)

/-- Vertex fetch in `performFluidBlending`: direct read below the
buffer's own count, otherwise the ratio-interpolated read with `|| 0`
defaults (out-of-range components read as 0). -/
def fetchVertex (vs : List Vec3) (maxVertexCount i : ℕ) : Vec3 :=
  if i < vs.length then vs.getD i ⟨0, 0, 0⟩
  else vs.getD (i * vs.length / maxVertexCount) ⟨0, 0, 0⟩

/-- One smoothing pass: `blendedVertex.lerp((blendedVertex + vertexB) * 0.5, 0.1)`.
(`vertexA` aliases `blendedVertex` in the source at this point, because
`THREE.Vector3.lerp` mutates its receiver.) -/
def smoothPass (v b : Vec3) : Vec3 := v.lerpV ((v.add b).smul 0.5) 0.1

/-- The `smoothingIterations` loop of `performFluidBlending`. -/
def smoothIter : ℕ → Vec3 → Vec3 → Vec3
  | 0, v, _ => v
  | n + 1, v, b => smoothIter n (smoothPass v b) b

/-- `FluidDynamicsEngine.performFluidBlending`. -/
def performFluidBlending (verticesA verticesB : List Vec3) (mergerProgress : ℝ)
    (params : FluidDynamicsParameters) : List Vec3 :=
  let maxVertexCount := max verticesA.length verticesB.length
  let blendFactor := calculateBlendingFactor mergerProgress params
  (List.range maxVertexCount).map fun i =>
    let vertexA := fetchVertex verticesA maxVertexCount i
    let vertexB := fetchVertex verticesB maxVertexCount i
    let easedBlendFactor := easeInOutCubic blendFactor
    let blendedVertex := vertexA.lerpV vertexB (easedBlendFactor * params.blendingIntensity)
    smoothIter params.smoothingIterations blendedVertex vertexB

end FluidDynamicsEngine

/-- The quaternion record inside `QuaternionicHolonomy`. -/
structure Quat where
  w : ℝ
  x : ℝ
  y : ℝ
  z : ℝ

/-- `QuaternionicHolonomy` from `color-confinement-engine.tsx`. -/
structure QuaternionicHolonomy where
  theta : ℝ
  quaternion : Quat
  colorPhase : ℝ

namespace ColorConfinementEngine

/-- `x.toFixed(3)` as the integer of thousandths it prints: the nearest
integer `n` to `x*1000`, ties taking the larger `n` (ECMA-262). -/
def toFixed3 (x : ℝ) : ℤ := ⌊x * 1000 + 1 / 2⌋

/-- `Map.get`: first (unique) binding of the key in the association
list, if any. -/
def lookupAssoc {α β : Type} [DecidableEq α] : List (α × β) → α → Option β
  | [], _ => none
  | (k', v) :: rest, k => if k' = k then some v else lookupAssoc rest k

/-- `Map.set`: overwrite the key's binding in place, or append it. -/
def setAssoc {α β : Type} [DecidableEq α] : List (α × β) → α → β → List (α × β)
  | [], k, v => [(k, v)]
  | (k', v') :: rest, k, v =>
    if k' = k then (k, v) :: rest else (k', v') :: setAssoc rest k v

/-- `Math.atan2(y, x)`, as the argument of the complex number `x + iy`. -/
def atan2 (y x : ℝ) : ℝ := Complex.arg ⟨x, y⟩

/-- The holonomy computed on a cache miss for quark `i`
(`calculateQuaternionicHolonomy` loop body).  A missing charge entry is
read as 0. -/
def computeHolonomy (quark : String) (charge progress : ℝ) (i : ℕ) :
    QuaternionicHolonomy :=
  let baseTheta := if quark = "u" then 2 * π / 3 else 4 * π / 3
  let deltaTheta := charge * 0.15 * (1 - progress * 0.8)
  let theta := baseTheta + deltaTheta
  { theta := theta
    quaternion := { w := Real.cos (theta / 2)
                    x := if i = 0 then Real.sin (theta / 2) else 0
                    y := if i = 1 then Real.sin (theta / 2) else 0
                    z := if i = 2 then Real.sin (theta / 2) else 0 }
    colorPhase := atan2 (Real.sin (theta / 2)) (Real.cos (theta / 2)) }

/-- The holonomy cache `holonomyCache`, keyed by the string
`{quarks.join('-')}-{progress.toFixed(3)}-{i}` (modelled as the triple
of its three components — the charges are famously absent). -/
abbrev HCache : Type := List (((List String) × ℤ × ℕ) × QuaternionicHolonomy)

/-- The `quarks.map((quark, i) => ...)` loop of
`calculateQuaternionicHolonomy`, threading the mutable cache. -/
def holonomyLoop (key : (List String) × ℤ) (charges : List ℝ) (progress : ℝ) :
    HCache → List (ℕ × String) → List QuaternionicHolonomy × HCache
  | cache, [] => ([], cache)
  | cache, (i, quark) :: rest =>
    match lookupAssoc cache (key.1, key.2, i) with
    | some h =>
      let res := holonomyLoop key charges progress cache rest
      (h :: res.1, res.2)
    | none =>
      let h := computeHolonomy quark (charges.getD i 0) progress i
      let c1 := setAssoc cache (key.1, key.2, i) h
      let res := holonomyLoop key charges progress c1 rest
      (h :: res.1, res.2)

/-- `ColorConfinementEngine.calculateQuaternionicHolonomy`, as a state
transformer on the holonomy cache. -/
def calculateQuaternionicHolonomy (cache : HCache) (quarks : List String)
    (charges : List ℝ) (progress : ℝ) : List QuaternionicHolonomy × HCache :=
  holonomyLoop (quarks, toFixed3 progress) charges progress cache quarks.enum

/-- The bordism cache `bordismClassification`, keyed by the joined
`theta.toFixed(3)` list of the holonomies only. -/
abbrev BCache : Type := List ((List ℤ) × ℕ)

/-- `ColorConfinementEngine.calculateBordismClass`, as a state
transformer on the bordism cache: on a miss the result is the parity of
the `true` entries of `pinMinusValid`. -/
def calculateBordismClass (cache : BCache) (holonomies : List QuaternionicHolonomy)
    (pinMinusValid : List Bool) : ℕ × BCache :=
  let key := holonomies.map fun h => toFixed3 h.theta
  match lookupAssoc cache key with
  | some c => (c, cache)
  | none =>
    let validPinMinusCount := (pinMinusValid.filter fun valid => valid).length
    let bordismClass := validPinMinusCount % 2
    (bordismClass, setAssoc cache key bordismClass)

/-- The double loop of `calculateAverageDistance`: total distance over
ordered pairs `i < j`, and the pair count. -/
def pairwiseData : List Vec3 → ℝ × ℕ
  | [] => (0, 0)
  | p :: rest =>
    let inner := rest.foldl (fun acc q => acc + p.distanceTo q) 0
    let res := pairwiseData rest
    (inner + res.1, rest.length + res.2)

/-- `ColorConfinementEngine.calculateAverageDistance`: mean pairwise
distance, `0` when there is no pair. -/
def calculateAverageDistance (positions : List Vec3) : ℝ :=
  let data := pairwiseData positions
  if 0 < data.2 then data.1 / data.2 else 0

/-- `ColorConfinementEngine.calculateDynamicConfinement`. -/
def calculateDynamicConfinement (positions : List Vec3)
    (holonomies : List QuaternionicHolonomy) (progress : ℝ) : ℝ :=
  let avgSeparation := calculateAverageDistance positions
  let holonomyFactor :=
    (holonomies.foldl (fun sum h => sum + |Real.sin (h.theta / 2)|) 0) /
      holonomies.length
  let progressFactor := 1 + 2 * progress * (1 - progress)
  holonomyFactor * progressFactor / (1 + avgSeparation)

end ColorConfinementEngine

/-- The `kleinBottle` parametric function of
`enhanced-three-js-visualization.tsx`: base figure-8 Klein geometry, an
optional energy rotation (gated on the `showRotation` ref), then the
offset.  The `deformationVector` parameter is declared but unused in the
source. -/
def kleinBottle (showRotation : Bool) (u v scale : ℝ) (offset : Vec3)
    (rotationAngle : ℝ) (deformationVector : Vec3) : Vec3 :=
  let x := (2 + Real.cos (u / 2) * Real.sin v - Real.sin (u / 2) * Real.sin (2 * v)) *
      Real.cos u * scale
  let y := (2 + Real.cos (u / 2) * Real.sin v - Real.sin (u / 2) * Real.sin (2 * v)) *
      Real.sin u * scale
  let z := (Real.sin (u / 2) * Real.sin v + Real.cos (u / 2) * Real.sin (2 * v)) * scale
  let rotated :=
    if rotationAngle ≠ 0 ∧ showRotation then
      (x * Real.cos rotationAngle - y * Real.sin rotationAngle,
       x * Real.sin rotationAngle + y * Real.cos rotationAngle)
    else (x, y)
  ⟨rotated.1 + offset.x, rotated.2 + offset.y, z + offset.z⟩

/-- A degenerate holonomy record (`theta = 0`), used as concrete input. -/
def sampleHolonomy : QuaternionicHolonomy :=
  { theta := 0, quaternion := ⟨1, 0, 0, 0⟩, colorPhase := 0 }

/-- Concrete parameters for the blending counterexample:
one smoothing iteration, full blending intensity. -/
def cexParams : FluidDynamicsParameters :=
  { fluidityStrength := 0.5, softness := 0.6, dynamic_deform := 0.4,
    interaction_vecs := [], tension_scalar := 0.3, proximityInfluence := 0.7,
    proximityThreshold := 2, forceDecayRate := 0.8, perlinNoiseScale := 0.5,
    perlinTimeSpeed := 0.3, wiggleAmplitude := 0.2, wiggleFrequency := 1.5,
    blendingIntensity := 1, vertexInterpolationRate := 0.1,
    smoothingIterations := 1, viscosityFactor := 0.4, elasticRestoring := 0.2,
    dampingCoefficient := 0.9 }

/-- Concrete parameters under which the blend endpoint laws hold
exactly: no smoothing, full blending intensity. -/
def endpointParams : FluidDynamicsParameters :=
  { cexParams with smoothingIterations := 0, blendingIntensity := 1 }

/-- Concrete parameters for the proximity claims: threshold 2, base
influence 1, decay rate 1/2. -/
def proxParams : FluidDynamicsParameters :=
  { cexParams with
      proximityInfluence := 1
      proximityThreshold := 2
      forceDecayRate := 1 / 2 }

/-- Concrete parameters for the coincident-anchor claims: threshold 1,
base influence 1, decay rate 1. -/
def coincParams : FluidDynamicsParameters :=
  { cexParams with
      proximityInfluence := 1
      proximityThreshold := 1
      forceDecayRate := 1 }

/-- A concrete Klein bottle surface configuration with every deformation
intensity at 0. -/
def witnessSurfaceParams : KleinBottleSurfaceParams :=
  { u := 0, v := 0, scale := 1, offset := ⟨0, 0, 0⟩, rotationAngle := 0,
    dynamic_deform := 0, interaction_vecs := [], tension_scalar := 0,
    time := 0, noiseOffset := ⟨0, 0, 0⟩, wigglePhase := 0 }

/-- A per-component displacement budget for
`generateFluidKleinBottleSurface`, summing the worst case of each
deformation stage (sinusoidal distortion, interaction pulls, local
bulging, tension smoothing, Perlin warping, wiggle).  It depends on the
configuration but not on the time. -/
def deformBound (params : KleinBottleSurfaceParams) : ℝ :=
  0.3 * params.dynamic_deform +
    0.2 * params.dynamic_deform * params.interaction_vecs.length +
    (8 * |params.scale| + 0.3 * params.dynamic_deform +
        0.2 * params.dynamic_deform * params.interaction_vecs.length) *
      (0.3 * params.dynamic_deform) +
    0.1 * params.tension_scalar + 0.8 * params.dynamic_deform +
    0.2 * params.dynamic_deform

/-! ## Lemmas and claim theorems -/

open SimplePerlinNoise FluidDynamicsEngine ColorConfinementEngine

lemma fade_nonneg {t : ℝ} (h0 : 0 ≤ t) (h1 : t ≤ 1) : 0 ≤ fade t := by
  have hcube : 0 ≤ t * t * t := by positivity
  have hquad : 0 ≤ t * (t * 6 - 15) + 10 := by nlinarith [sq_nonneg (2 * t - 5 / 2)]
  simpa [fade] using mul_nonneg hcube hquad

lemma fade_le_one {t : ℝ} (h0 : 0 ≤ t) (h1 : t ≤ 1) : fade t ≤ 1 := by
  have key : 1 - fade t = (1 - t) ^ 3 * (6 * t * t + 3 * t + 1) := by
    simp only [fade]; ring
  nlinarith [pow_nonneg (sub_nonneg.mpr h1) 3, sq_nonneg t, mul_nonneg h0 h0,
    mul_nonneg (pow_nonneg (sub_nonneg.mpr h1) 3) (mul_nonneg h0 h0)]

lemma abs_lerp_le {a b t c : ℝ} (ha : |a| ≤ c) (hb : |b| ≤ c)
    (h0 : 0 ≤ t) (h1 : t ≤ 1) : |lerp a b t| ≤ c := by
  simp only [lerp]
  rw [abs_le] at ha hb ⊢
  constructor <;> nlinarith [mul_le_mul_of_nonneg_left hb.2 h0,
    mul_le_mul_of_nonneg_left hb.1 h0,
    mul_le_mul_of_nonneg_left ha.2 (sub_nonneg.mpr h1),
    mul_le_mul_of_nonneg_left ha.1 (sub_nonneg.mpr h1)]

lemma abs_grad_le {h : ℕ} {x y z : ℝ} (hx : |x| ≤ 1) (hy : |y| ≤ 1)
    (hz : |z| ≤ 1) : |grad h x y z| ≤ 2 := by
  simp only [grad]
  split_ifs <;>
    (refine le_trans (abs_add _ _) ?_; try simp only [abs_neg]) <;> linarith

lemma abs_fract_le_one (x : ℝ) : |x - ⌊x⌋| ≤ 1 := by
  have h0 : 0 ≤ x - ⌊x⌋ := sub_nonneg.mpr (Int.floor_le x)
  have h1 : x - ⌊x⌋ < 1 := by
    have := Int.lt_floor_add_one x
    linarith
  rw [abs_le]; constructor <;> linarith

lemma abs_fract_sub_one_le_one (x : ℝ) : |x - ⌊x⌋ - 1| ≤ 1 := by
  have h0 : 0 ≤ x - ⌊x⌋ := sub_nonneg.mpr (Int.floor_le x)
  have h1 : x - ⌊x⌋ < 1 := by
    have := Int.lt_floor_add_one x
    linarith
  rw [abs_le]; constructor <;> linarith

lemma fract_fade_nonneg (x : ℝ) : 0 ≤ fade (x - ⌊x⌋) := by
  have h0 : 0 ≤ x - ⌊x⌋ := sub_nonneg.mpr (Int.floor_le x)
  have h1 : x - ⌊x⌋ ≤ 1 := by
    have := Int.lt_floor_add_one x
    linarith
  exact fade_nonneg h0 h1

lemma fract_fade_le_one (x : ℝ) : fade (x - ⌊x⌋) ≤ 1 := by
  have h0 : 0 ≤ x - ⌊x⌋ := sub_nonneg.mpr (Int.floor_le x)
  have h1 : x - ⌊x⌋ ≤ 1 := by
    have := Int.lt_floor_add_one x
    linarith
  exact fade_le_one h0 h1

/-- The interpolated gradient sum stays within `[-2, 2]` for every table
and every finite input. -/
lemma abs_noise3D_le_two (pt : ℕ → ℕ) (x y z : ℝ) :
    |noise3D pt x y z| ≤ 2 := by
  simp only [noise3D]
  have gx := abs_fract_le_one x
  have gy := abs_fract_le_one y
  have gz := abs_fract_le_one z
  have gx1 := abs_fract_sub_one_le_one x
  have gy1 := abs_fract_sub_one_le_one y
  have gz1 := abs_fract_sub_one_le_one z
  refine abs_lerp_le (abs_lerp_le (abs_lerp_le ?_ ?_ ?_ ?_) (abs_lerp_le ?_ ?_ ?_ ?_) ?_ ?_)
      (abs_lerp_le (abs_lerp_le ?_ ?_ ?_ ?_) (abs_lerp_le ?_ ?_ ?_ ?_) ?_ ?_) ?_ ?_ <;>
    first
      | exact abs_grad_le (by assumption) (by assumption) (by assumption)
      | exact fract_fade_nonneg _
      | exact fract_fade_le_one _

lemma toNat_emod_lt (n : ℤ) : (n % 256).toNat < 256 := by
  have h1 : (0 : ℤ) ≤ n % 256 := Int.emod_nonneg _ (by norm_num)
  have h2 : n % 256 < 256 := Int.emod_lt_of_pos _ (by norm_num)
  omega

/-- With a valid 256-entry table, every permutation read of `noise3D`
stays inside the 512-entry extended array. -/
lemma probedIndices_lt (pt : ℕ → ℕ) (hpt : ∀ i, i < 256 → pt i < 256)
    (x y z : ℝ) : ∀ i ∈ probedIndices pt x y z, i < 512 := by
  have hmod : ∀ i : ℕ, pt (i % 256) < 256 :=
    fun i => hpt _ (Nat.mod_lt _ (by norm_num))
  have hX := toNat_emod_lt ⌊x⌋
  have hY := toNat_emod_lt ⌊y⌋
  have hZ := toNat_emod_lt ⌊z⌋
  have b1 : pt ((⌊x⌋ % 256).toNat % 256) < 256 := hmod _
  have b2 : pt ((pt ((⌊x⌋ % 256).toNat % 256) + (⌊y⌋ % 256).toNat) % 256) < 256 := hmod _
  have b3 : pt ((pt ((⌊x⌋ % 256).toNat % 256) + (⌊y⌋ % 256).toNat + 1) % 256) < 256 := hmod _
  have b4 : pt (((⌊x⌋ % 256).toNat + 1) % 256) < 256 := hmod _
  have b5 : pt ((pt (((⌊x⌋ % 256).toNat + 1) % 256) + (⌊y⌋ % 256).toNat) % 256) < 256 := hmod _
  have b6 : pt ((pt (((⌊x⌋ % 256).toNat + 1) % 256) + (⌊y⌋ % 256).toNat + 1) % 256) < 256 := hmod _
  intro i hi
  simp only [probedIndices, List.mem_cons, List.not_mem_nil, or_false] at hi
  rcases hi with h | h | h | h | h | h | h | h | h | h | h | h | h | h <;> subst h <;> omega

set_option maxRecDepth 10000 in
lemma permTable_inv_check :
    ∀ i, i < 256 → permTableInv (permTable i) = i ∧ permTable i < 256 := by decide

lemma permTable_isShuffle : IsShuffle permTable := by
  refine ⟨fun i hi => (permTable_inv_check i hi).2, fun i j hi hj heq => ?_⟩
  have h1 := (permTable_inv_check i hi).1
  have h2 := (permTable_inv_check j hj).1
  rw [← h1, ← h2, heq]

/-- C5 (counterexample): the claimed range `[-1, 1]` fails.  For the
realisable Fisher–Yates table `permTable` and the finite input
`(3/5, 3/5, 1/2)`, `noise3D` exceeds `1`. -/
theorem noise3D_range_counterexample :
    IsShuffle permTable ∧ 1 < noise3D permTable (3 / 5) (3 / 5) (1 / 2) := by
  refine ⟨permTable_isShuffle, ?_⟩
  have hx : ⌊(3 / 5 : ℝ)⌋ = 0 := by norm_num
  have hz : ⌊(1 / 2 : ℝ)⌋ = 0 := by norm_num
  simp only [noise3D, hx, hz]
  norm_num [fade, lerp, grad, permTable]

/-- C5 (amended): for every valid 256-entry shuffle and every finite
input, `noise3D` performs only in-bounds permutation-table reads and
returns a finite scalar in `[-2, 2]` (the `[-1, 1]` bound of the claim
is refuted by `noise3D_range_counterexample`), and `noise2D(x,y)`
returns exactly `noise3D(x,y,0)`. -/
theorem noise3D_total_bounded (pt : ℕ → ℕ) (hpt : IsShuffle pt) (x y z : ℝ) :
    (∀ i ∈ probedIndices pt x y z, i < 512) ∧
      |noise3D pt x y z| ≤ 2 ∧ noise2D pt x y = noise3D pt x y 0 :=
  ⟨probedIndices_lt pt hpt.1 x y z, abs_noise3D_le_two pt x y z, rfl⟩

/-- C5 (witness): the amended theorem applied to the concrete shuffle
`permTable` at the input `(0, 0, 0)`. -/
theorem noise3D_total_bounded_witness :
    IsShuffle permTable ∧
      ((∀ i ∈ probedIndices permTable 0 0 0, i < 512) ∧
        |noise3D permTable 0 0 0| ≤ 2 ∧
        noise2D permTable 0 0 = noise3D permTable 0 0 0) :=
  ⟨permTable_isShuffle, noise3D_total_bounded permTable permTable_isShuffle 0 0 0⟩

/-- C8 (counterexample): `u ↦ u + 2π` is not a period of the parametric
function: at `u = 0`, `v = π/2` (scale 1, zero offset, no rotation) the
two points differ — `cos(u/2)` flips sign under `u ↦ u + 2π`. -/
theorem kleinBottle_u_period_counterexample :
    kleinBottle false (2 * π) (π / 2) 1 ⟨0, 0, 0⟩ 0 ⟨0, 0, 0⟩ ≠
      kleinBottle false 0 (π / 2) 1 ⟨0, 0, 0⟩ 0 ⟨0, 0, 0⟩ := by
  intro h
  have hx := congrArg Vec3.x h
  simp only [kleinBottle, show (2 : ℝ) * π / 2 = π from by ring,
    show (2 : ℝ) * (π / 2) = π from by ring, Real.cos_pi, Real.sin_pi,
    Real.cos_two_pi, Real.sin_two_pi, Real.cos_zero, Real.sin_zero,
    Real.sin_pi_div_two, zero_div] at hx
  norm_num at hx

/-- C8 (amended): the surface is `2π`-periodic in `v` and `4π`-periodic
in `u` (the half-angle terms `cos(u/2)`, `sin(u/2)` make `2π` a
anti-period, not a period, in `u`; see
`kleinBottle_u_period_counterexample`). -/
theorem kleinBottle_periodic (sr : Bool) (u v scale : ℝ) (offset : Vec3)
    (rotationAngle : ℝ) (dv : Vec3) :
    kleinBottle sr u (v + 2 * π) scale offset rotationAngle dv =
        kleinBottle sr u v scale offset rotationAngle dv ∧
      kleinBottle sr (u + 4 * π) v scale offset rotationAngle dv =
        kleinBottle sr u v scale offset rotationAngle dv := by
  have s1 : Real.sin (v + 2 * π) = Real.sin v := Real.sin_add_two_pi v
  have s2 : Real.sin (2 * (v + 2 * π)) = Real.sin (2 * v) := by
    rw [show 2 * (v + 2 * π) = 2 * v + 2 * π + 2 * π from by ring,
      Real.sin_add_two_pi, Real.sin_add_two_pi]
  have s3 : Real.sin ((u + 4 * π) / 2) = Real.sin (u / 2) := by
    rw [show (u + 4 * π) / 2 = u / 2 + 2 * π from by ring, Real.sin_add_two_pi]
  have s4 : Real.cos ((u + 4 * π) / 2) = Real.cos (u / 2) := by
    rw [show (u + 4 * π) / 2 = u / 2 + 2 * π from by ring, Real.cos_add_two_pi]
  have s5 : Real.cos (u + 4 * π) = Real.cos u := by
    rw [show u + 4 * π = u + 2 * π + 2 * π from by ring,
      Real.cos_add_two_pi, Real.cos_add_two_pi]
  have s6 : Real.sin (u + 4 * π) = Real.sin u := by
    rw [show u + 4 * π = u + 2 * π + 2 * π from by ring,
      Real.sin_add_two_pi, Real.sin_add_two_pi]
  constructor <;> simp only [kleinBottle, s1, s2, s3, s4, s5, s6]

lemma distanceTo_nonneg (a b : Vec3) : 0 ≤ a.distanceTo b := Real.sqrt_nonneg _

lemma foldl_dist_nonneg (p : Vec3) :
    ∀ (l : List Vec3) (a : ℝ), 0 ≤ a →
      0 ≤ l.foldl (fun acc q => acc + p.distanceTo q) a := by
  intro l
  induction l with
  | nil => intro a ha; simpa using ha
  | cons q t ih =>
    intro a ha
    have hd := distanceTo_nonneg p q
    have hsum : 0 ≤ a + p.distanceTo q := by linarith
    exact ih (a + p.distanceTo q) hsum

lemma pairwiseData_fst_nonneg : ∀ l : List Vec3, 0 ≤ (pairwiseData l).1 := by
  intro l
  induction l with
  | nil => simp [pairwiseData]
  | cons p t ih =>
    simp only [pairwiseData]
    have h1 := foldl_dist_nonneg p t 0 le_rfl
    linarith

lemma averageDistance_nonneg (positions : List Vec3) :
    0 ≤ calculateAverageDistance positions := by
  simp only [calculateAverageDistance]
  split_ifs with h
  · exact div_nonneg (pairwiseData_fst_nonneg positions) (Nat.cast_nonneg _)
  · exact le_rfl

/-- C10: `calculateAverageDistance` returns 0 for lists with fewer than
two anchors (the `pairCount > 0` guard), and the confinement denominator
`1 + averageDistance` is always at least 1, so
`calculateDynamicConfinement` never divides by zero. -/
theorem averageDistance_guard (positions : List Vec3) :
    (positions.length < 2 → calculateAverageDistance positions = 0) ∧
      (1 : ℝ) ≤ 1 + calculateAverageDistance positions := by
  constructor
  · intro h
    match positions with
    | [] => simp [calculateAverageDistance, pairwiseData]
    | [a] => simp [calculateAverageDistance, pairwiseData]
    | a :: b :: rest => simp only [List.length_cons] at h; omega
  · linarith [averageDistance_nonneg positions]

/-- C10 (witness): the guard and the denominator bound at the concrete
single-anchor list. -/
theorem averageDistance_guard_witness :
    calculateAverageDistance [(⟨0, 0, 0⟩ : Vec3)] = 0 ∧
      (1 : ℝ) ≤ 1 + calculateAverageDistance [(⟨0, 0, 0⟩ : Vec3)] :=
  ⟨(averageDistance_guard _).1 (by simp), (averageDistance_guard _).2⟩

lemma foldl_abs_sin (l : List QuaternionicHolonomy) (a : ℝ) :
    l.foldl (fun sum h => sum + |Real.sin (h.theta / 2)|) a =
      a + (l.map fun h => |Real.sin (h.theta / 2)|).sum := by
  induction l generalizing a with
  | nil => simp
  | cons h t ih => simp only [List.foldl_cons, List.map_cons, List.sum_cons, ih]; ring

lemma progressFactor_lt {q : ℝ} (h0 : 0 ≤ q) (h1 : q ≤ 1) (hq : q ≠ 1 / 2) :
    1 + 2 * q * (1 - q) < 1 + 2 * (1 / 2 : ℝ) * (1 - 1 / 2) := by
  have h3 : q - 1 / 2 ≠ 0 := sub_ne_zero.mpr hq
  have h4 : 0 < (q - 1 / 2) ^ 2 :=
    lt_of_le_of_ne (sq_nonneg _) (Ne.symm (pow_ne_zero 2 h3))
  nlinarith [h4]

/-- C7 (counterexample): with the degenerate (but admissible) holonomy
list `[theta = 0]` the confinement strength is identically 0, so its
maximum over `progress ∈ [0,1]` is **not** attained exactly at `0.5`:
the values at `0.3` and `0.5` agree. -/
theorem confinement_peak_counterexample :
    calculateDynamicConfinement [] [sampleHolonomy] (3 / 10) =
        calculateDynamicConfinement [] [sampleHolonomy] (1 / 2) ∧
      (3 / 10 : ℝ) ≠ 1 / 2 := by
  constructor
  · simp [calculateDynamicConfinement, sampleHolonomy, zero_div, Real.sin_zero]
  · norm_num

/-- C7 (amended): `calculateDynamicConfinement` equals the mean of
`|sin(theta/2)|` times the progress factor `1 + 2p(1-p)`, divided by
`1 + averagePairwiseDistance`; the progress factor attains its maximum
on `[0,1]` exactly at `progress = 1/2`, and so does the result whenever
the holonomy mean is positive (the unconditional claim about the result
fails — see `confinement_peak_counterexample`). -/
theorem confinement_formula_peak (positions : List Vec3)
    (holonomies : List QuaternionicHolonomy) (hne : holonomies ≠ []) (progress : ℝ) :
    calculateDynamicConfinement positions holonomies progress =
        ((holonomies.map fun h => |Real.sin (h.theta / 2)|).sum / holonomies.length) *
          (1 + 2 * progress * (1 - progress)) / (1 + calculateAverageDistance positions) ∧
      (∀ q : ℝ, 0 ≤ q → q ≤ 1 → q ≠ 1 / 2 →
        1 + 2 * q * (1 - q) < 1 + 2 * (1 / 2 : ℝ) * (1 - 1 / 2)) ∧
      (0 < (holonomies.map fun h => |Real.sin (h.theta / 2)|).sum →
        ∀ q : ℝ, 0 ≤ q → q ≤ 1 → q ≠ 1 / 2 →
          calculateDynamicConfinement positions holonomies q <
            calculateDynamicConfinement positions holonomies (1 / 2)) := by
  refine ⟨?_, fun q h0 h1 hq => progressFactor_lt h0 h1 hq, fun hS q h0 h1 hq => ?_⟩
  · simp only [calculateDynamicConfinement, foldl_abs_sin, zero_add]
  · have hn : 0 < (holonomies.length : ℝ) := by
      exact_mod_cast List.length_pos.mpr hne
    have hK : 0 < (holonomies.map fun h => |Real.sin (h.theta / 2)|).sum /
        holonomies.length := div_pos hS hn
    have hD : 0 < 1 + calculateAverageDistance positions := by
      linarith [averageDistance_nonneg positions]
    simp only [calculateDynamicConfinement, foldl_abs_sin, zero_add]
    rw [div_lt_div_iff₀ hD hD]
    have hpf := progressFactor_lt h0 h1 hq
    nlinarith [hK, hD, hpf, mul_lt_mul_of_pos_left hpf hK]

/-- C7 (witness): the amended theorem at the concrete degenerate inputs
(empty anchor list, the `theta = 0` holonomy, `progress = 3/10`). -/
theorem confinement_formula_peak_witness :
    ([sampleHolonomy] ≠ ([] : List QuaternionicHolonomy)) ∧
      (calculateDynamicConfinement [] [sampleHolonomy] (3 / 10) =
        (([sampleHolonomy].map fun h => |Real.sin (h.theta / 2)|).sum /
            ([sampleHolonomy] : List QuaternionicHolonomy).length) *
          (1 + 2 * (3 / 10) * (1 - 3 / 10)) / (1 + calculateAverageDistance []) ∧
      (∀ q : ℝ, 0 ≤ q → q ≤ 1 → q ≠ 1 / 2 →
        1 + 2 * q * (1 - q) < 1 + 2 * (1 / 2 : ℝ) * (1 - 1 / 2)) ∧
      (0 < ([sampleHolonomy].map fun h => |Real.sin (h.theta / 2)|).sum →
        ∀ q : ℝ, 0 ≤ q → q ≤ 1 → q ≠ 1 / 2 →
          calculateDynamicConfinement [] [sampleHolonomy] q <
            calculateDynamicConfinement [] [sampleHolonomy] (1 / 2))) :=
  ⟨List.cons_ne_nil _ _,
    confinement_formula_peak [] [sampleHolonomy] (List.cons_ne_nil _ _) (3 / 10)⟩

lemma toFixed3_zero : toFixed3 0 = 0 := by
  simp only [toFixed3, zero_mul, zero_add]
  norm_num

/-- C6 (counterexample): the bordism cache is keyed by the holonomy
thetas only, so a second call with the same holonomies but a different
validity list returns the stale parity: after classifying
`[true]` (parity 1), the call with `[true, true]` (parity 0) still
returns 1. -/
theorem bordism_stale_cache_counterexample :
    (calculateBordismClass (calculateBordismClass [] [sampleHolonomy] [true]).2
        [sampleHolonomy] [true, true]).1 = 1 ∧
      ((List.filter (fun valid => valid) [true, true]).length) % 2 = 0 := by
  constructor
  · simp [calculateBordismClass, sampleHolonomy, lookupAssoc, setAssoc, toFixed3_zero]
  · rfl

/-- C6 (amended): on a cache miss (in particular on every call with a
fresh engine), `calculateBordismClass` returns the parity of the `true`
entries of `pinMinusValid`: 0 when even, 1 when odd.  On a hit it
returns the cached class regardless of `pinMinusValid` — see
`bordism_stale_cache_counterexample`. -/
theorem bordism_parity_on_miss (cache : BCache)
    (holonomies : List QuaternionicHolonomy) (pinMinusValid : List Bool)
    (hmiss : lookupAssoc cache (holonomies.map fun h => toFixed3 h.theta) = none) :
    (calculateBordismClass cache holonomies pinMinusValid).1 =
      ((pinMinusValid.filter fun valid => valid).length) % 2 := by
  simp only [calculateBordismClass, hmiss]

/-- C6 (witness): the amended theorem on an empty cache with one valid
entry (parity 1). -/
theorem bordism_parity_on_miss_witness :
    lookupAssoc ([] : BCache) ([sampleHolonomy].map fun h => toFixed3 h.theta) = none ∧
      (calculateBordismClass [] [sampleHolonomy] [true]).1 =
        ((List.filter (fun valid => valid) [true]).length) % 2 :=
  ⟨rfl, bordism_parity_on_miss [] [sampleHolonomy] [true] rfl⟩

lemma lookupAssoc_setAssoc_self {α β : Type} [DecidableEq α]
    (c : List (α × β)) (k : α) (v : β) :
    lookupAssoc (setAssoc c k v) k = some v := by
  induction c with
  | nil => simp [setAssoc, lookupAssoc]
  | cons e rest ih =>
    obtain ⟨k1, v1⟩ := e
    by_cases he : k1 = k
    · simp [setAssoc, lookupAssoc, he]
    · simp only [setAssoc, lookupAssoc, if_neg he]
      exact ih

lemma lookupAssoc_setAssoc_ne {α β : Type} [DecidableEq α]
    (c : List (α × β)) (k k' : α) (v : β) (h : k' ≠ k) :
    lookupAssoc (setAssoc c k v) k' = lookupAssoc c k' := by
  induction c with
  | nil => simp [setAssoc, lookupAssoc, Ne.symm h]
  | cons e rest ih =>
    obtain ⟨k1, v1⟩ := e
    by_cases he : k1 = k
    · simp only [setAssoc, lookupAssoc, if_pos he, if_neg (Ne.symm h)]
      rw [if_neg]
      rw [he]; exact Ne.symm h
    · simp only [setAssoc, lookupAssoc, if_neg he]
      by_cases he' : k1 = k'
      · rw [if_pos he', if_pos he']
      · rw [if_neg he', if_neg he']
        exact ih

/-- A binding present in the cache survives the holonomy loop: hits do
not touch the cache and misses only insert keys that were absent. -/
lemma holonomyLoop_preserves (key : (List String) × ℤ) (charges : List ℝ)
    (progress : ℝ) :
    ∀ (l : List (ℕ × String)) (c : HCache) (k : (List String) × ℤ × ℕ)
      (v : QuaternionicHolonomy), lookupAssoc c k = some v →
      lookupAssoc (holonomyLoop key charges progress c l).2 k = some v := by
  intro l
  induction l with
  | nil => intro c k v h; simpa [holonomyLoop] using h
  | cons e rest ih =>
    intro c k v h
    obtain ⟨i, quark⟩ := e
    cases hl : lookupAssoc c (key.1, key.2, i) with
    | some h0 =>
      simp only [holonomyLoop, hl]
      exact ih c k v h
    | none =>
      have hne : k ≠ (key.1, key.2, i) := by
        intro he
        rw [he, hl] at h
        cases h
      simp only [holonomyLoop, hl]
      apply ih
      rw [lookupAssoc_setAssoc_ne _ _ _ _ hne]
      exact h

/-- After the holonomy loop runs, each processed index is bound in the
final cache to exactly the holonomy the loop returned for it. -/
lemma holonomyLoop_post (key : (List String) × ℤ) (charges : List ℝ)
    (progress : ℝ) :
    ∀ (l : List (ℕ × String)) (c : HCache),
      List.Forall₂ (fun (e : ℕ × String) (h : QuaternionicHolonomy) =>
          lookupAssoc (holonomyLoop key charges progress c l).2
            (key.1, key.2, e.1) = some h)
        l (holonomyLoop key charges progress c l).1 := by
  intro l
  induction l with
  | nil => intro c; simp [holonomyLoop]
  | cons e rest ih =>
    intro c
    obtain ⟨i, quark⟩ := e
    cases hl : lookupAssoc c (key.1, key.2, i) with
    | some h0 =>
      simp only [holonomyLoop, hl]
      exact List.Forall₂.cons (holonomyLoop_preserves key charges progress rest c _ h0 hl)
        (ih c)
    | none =>
      simp only [holonomyLoop, hl]
      refine List.Forall₂.cons ?_ (ih _)
      exact holonomyLoop_preserves key charges progress rest _ _ _
        (lookupAssoc_setAssoc_self c _ _)

/-- If every processed index is already bound in the cache to the
corresponding value, the holonomy loop returns exactly those values and
leaves the cache unchanged (every step is a hit; the charges and
progress passed to the loop are never consulted). -/
lemma holonomyLoop_replay (key : (List String) × ℤ) (charges : List ℝ)
    (progress : ℝ) (l : List (ℕ × String)) (hs : List QuaternionicHolonomy)
    (c : HCache)
    (hf : List.Forall₂ (fun (e : ℕ × String) (h : QuaternionicHolonomy) =>
        lookupAssoc c (key.1, key.2, e.1) = some h) l hs) :
    holonomyLoop key charges progress c l = (hs, c) := by
  induction hf with
  | nil => simp [holonomyLoop]
  | cons h1 h2 ih =>
    rename_i e h l' hs'
    obtain ⟨i, quark⟩ := e
    simp only [holonomyLoop, h1, ih]

/-- C9: once `calculateQuaternionicHolonomy` has been called, a second
call on the resulting cache with the same quark list and a progress
value printing to the same 3 decimals returns exactly the first call's
holonomies, even when the charges differ: the cache key omits the
charges. -/
theorem holonomy_cache_ignores_charges (c0 : HCache) (quarks : List String)
    (charges charges' : List ℝ) (p p' : ℝ)
    (hfix : toFixed3 p' = toFixed3 p) :
    (calculateQuaternionicHolonomy
        ((calculateQuaternionicHolonomy c0 quarks charges p).2) quarks charges' p').1 =
      (calculateQuaternionicHolonomy c0 quarks charges p).1 := by
  simp only [calculateQuaternionicHolonomy, hfix]
  rw [holonomyLoop_replay (quarks, toFixed3 p) charges' p' quarks.enum _ _
    (holonomyLoop_post (quarks, toFixed3 p) charges p quarks.enum c0)]

/-- C9 (witness): a proton-style quark with charge 1 then charge 2, same
progress: the second call returns the first call's holonomies. -/
theorem holonomy_cache_ignores_charges_witness :
    toFixed3 (0 : ℝ) = toFixed3 (0 : ℝ) ∧
      (calculateQuaternionicHolonomy
          ((calculateQuaternionicHolonomy [] ["u"] [1] 0).2) ["u"] [2] 0).1 =
        (calculateQuaternionicHolonomy [] ["u"] [1] 0).1 :=
  ⟨rfl, holonomy_cache_ignores_charges [] ["u"] [1] [2] 0 0 rfl⟩

lemma Vec3.sub_self (a : Vec3) : a.sub a = ⟨0, 0, 0⟩ := by
  simp [Vec3.sub]

lemma Vec3.length_zero : (⟨0, 0, 0⟩ : Vec3).length = 0 := by
  simp [Vec3.length, Real.sqrt_zero]

lemma Vec3.distanceTo_self (a : Vec3) : a.distanceTo a = 0 := by
  rw [Vec3.distanceTo, Vec3.sub_self, Vec3.length_zero]

lemma Vec3.normalize_zero : (⟨0, 0, 0⟩ : Vec3).normalize = ⟨0, 0, 0⟩ := by
  simp [Vec3.normalize, Vec3.smul]

lemma calcProx_entry (positions : List Vec3) (params : FluidDynamicsParameters)
    {i j : ℕ} (hi : i < positions.length) (hj : j < positions.length) :
    ((calculateProximityPhysics positions params).getD i []).getD j none =
      proximityEntry positions params i j := by
  have hlen1 : i < (calculateProximityPhysics positions params).length := by
    simpa [calculateProximityPhysics] using hi
  rw [List.getD_eq_getElem _ _ hlen1]
  simp only [calculateProximityPhysics, List.getElem_map, List.getElem_range]
  have hlen2 : j < ((List.range positions.length).map fun j =>
      proximityEntry positions params i j).length := by simpa using hj
  rw [List.getD_eq_getElem _ _ hlen2, List.getElem_map, List.getElem_range]

/-- C2: for every ordered pair `(i,j)`, `i ≠ j`, the proximity result
holds `influence = 0` when `distance ≥ threshold` and otherwise
`baseInfluence * (1 - d/threshold) * decayRate^d`; and for positive base
influence and decay rate in `(0,1]` the influence is strictly decreasing
in distance on `[0, threshold)`. -/
theorem proximity_influence_formula (positions : List Vec3)
    (params : FluidDynamicsParameters) :
    (∀ i j, i < positions.length → j < positions.length → i ≠ j →
      ∃ r, ((calculateProximityPhysics positions params).getD i []).getD j none = some r ∧
        r.distance = (positions.getD i ⟨0, 0, 0⟩).distanceTo (positions.getD j ⟨0, 0, 0⟩) ∧
        r.influence =
          (if r.distance < params.proximityThreshold then
            (1 - r.distance / params.proximityThreshold) * params.proximityInfluence *
              params.forceDecayRate ^ r.distance
          else 0)) ∧
    (∀ d1 d2 : ℝ, 0 ≤ d1 → d1 < d2 → d2 < params.proximityThreshold →
      0 < params.proximityInfluence → 0 < params.forceDecayRate →
      params.forceDecayRate ≤ 1 →
      proximityInfluenceOf params d2 < proximityInfluenceOf params d1) := by
  constructor
  · intro i j hi hj hne
    rw [calcProx_entry positions params hi hj]
    simp only [proximityEntry, if_neg hne]
    exact ⟨_, rfl, rfl, rfl⟩
  · intro d1 d2 h0 h12 h2t hB hc hc1
    have ht : 0 < params.proximityThreshold := lt_of_le_of_lt (h0.trans h12.le) h2t
    simp only [proximityInfluenceOf, if_pos h2t, if_pos (h12.trans h2t)]
    have ha2 : 0 < 1 - d2 / params.proximityThreshold := by
      rw [sub_pos, div_lt_one ht]; exact h2t
    have ha12 : 1 - d2 / params.proximityThreshold <
        1 - d1 / params.proximityThreshold := by
      have hdd : d1 / params.proximityThreshold < d2 / params.proximityThreshold := by
        gcongr
      linarith
    have hp2 : 0 < params.forceDecayRate ^ d2 := Real.rpow_pos_of_pos hc _
    have hp21 : params.forceDecayRate ^ d2 ≤ params.forceDecayRate ^ d1 :=
      Real.rpow_le_rpow_of_exponent_ge hc hc1 h12.le
    have step1 : (1 - d2 / params.proximityThreshold) * params.proximityInfluence *
        params.forceDecayRate ^ d2 <
        (1 - d1 / params.proximityThreshold) * params.proximityInfluence *
        params.forceDecayRate ^ d2 :=
      mul_lt_mul_of_pos_right (mul_lt_mul_of_pos_right ha12 hB) hp2
    have step2 : (1 - d1 / params.proximityThreshold) * params.proximityInfluence *
        params.forceDecayRate ^ d2 ≤
        (1 - d1 / params.proximityThreshold) * params.proximityInfluence *
        params.forceDecayRate ^ d1 := by
      apply mul_le_mul_of_nonneg_left hp21
      have : 0 < 1 - d1 / params.proximityThreshold := lt_trans ha2 ha12
      positivity
    linarith

/-- C2 (witness): anchors at distance 1 with threshold 2, base influence
1, decay rate 1/2. -/
theorem proximity_influence_formula_witness :
    (∃ r, ((calculateProximityPhysics [⟨0, 0, 0⟩, ⟨1, 0, 0⟩] proxParams).getD 0 []).getD 1
          none = some r ∧
        r.distance = (([⟨0, 0, 0⟩, ⟨1, 0, 0⟩] : List Vec3).getD 0 ⟨0, 0, 0⟩).distanceTo
          (([⟨0, 0, 0⟩, ⟨1, 0, 0⟩] : List Vec3).getD 1 ⟨0, 0, 0⟩) ∧
        r.influence =
          (if r.distance < proxParams.proximityThreshold then
            (1 - r.distance / proxParams.proximityThreshold) * proxParams.proximityInfluence *
              proxParams.forceDecayRate ^ r.distance
          else 0)) ∧
      proximityInfluenceOf proxParams 1 < proximityInfluenceOf proxParams 0 :=
  ⟨(proximity_influence_formula [⟨0, 0, 0⟩, ⟨1, 0, 0⟩] proxParams).1 0 1
      (by norm_num) (by norm_num) (by norm_num),
    (proximity_influence_formula [⟨0, 0, 0⟩, ⟨1, 0, 0⟩] proxParams).2 0 1
      le_rfl (by norm_num) (by norm_num [proxParams, cexParams])
      (by norm_num [proxParams, cexParams]) (by norm_num [proxParams, cexParams])
      (by norm_num [proxParams, cexParams])⟩

/-- C3 (counterexample): for two coincident anchors the code does NOT
set the influence to 0: with threshold 1, base influence 1, decay 1 the
pair entry carries influence 1 (though direction and force are the zero
vector). -/
theorem coincident_influence_counterexample :
    ((calculateProximityPhysics [⟨1, 2, 3⟩, ⟨1, 2, 3⟩] coincParams).getD 0 []).getD 1 none =
      some { distance := 0, direction := ⟨0, 0, 0⟩, influence := 1,
             forceVector := ⟨0, 0, 0⟩ } ∧
      (1 : ℝ) ≠ 0 := by
  refine ⟨?_, one_ne_zero⟩
  rw [calcProx_entry _ _ (by norm_num) (by norm_num)]
  have e0 : ([⟨1, 2, 3⟩, ⟨1, 2, 3⟩] : List Vec3).getD 0 ⟨0, 0, 0⟩ = ⟨1, 2, 3⟩ := rfl
  have e1 : ([⟨1, 2, 3⟩, ⟨1, 2, 3⟩] : List Vec3).getD 1 ⟨0, 0, 0⟩ = ⟨1, 2, 3⟩ := rfl
  simp only [proximityEntry, if_neg (by norm_num : (0 : ℕ) ≠ 1), e0, e1,
    Vec3.distanceTo_self, Vec3.sub_self, Vec3.normalize_zero, proximityInfluenceOf,
    zero_div, Real.rpow_zero]
  rw [if_pos (by norm_num [coincParams, cexParams] : (0 : ℝ) < coincParams.proximityThreshold)]
  simp [coincParams, cexParams, Vec3.smul]

/-- C3 (amended): for coincident anchors (distance exactly 0) the entry
carries the zero direction vector and zero force vector (no NaN: the
three.js normalize guard), but the influence equals `proximityInfluence`
(not 0) whenever the threshold is positive. -/
theorem coincident_direction_zero (positions : List Vec3)
    (params : FluidDynamicsParameters) (i j : ℕ) (hi : i < positions.length)
    (hj : j < positions.length) (hne : i ≠ j)
    (hco : positions.getD i ⟨0, 0, 0⟩ = positions.getD j ⟨0, 0, 0⟩) :
    ∃ r, ((calculateProximityPhysics positions params).getD i []).getD j none = some r ∧
      r.distance = 0 ∧ r.direction = ⟨0, 0, 0⟩ ∧ r.forceVector = ⟨0, 0, 0⟩ ∧
      r.influence =
        (if 0 < params.proximityThreshold then params.proximityInfluence else 0) := by
  rw [calcProx_entry positions params hi hj]
  simp only [proximityEntry, if_neg hne, hco, Vec3.distanceTo_self, Vec3.sub_self,
    Vec3.normalize_zero]
  refine ⟨_, rfl, rfl, rfl, ?_, ?_⟩
  · simp [Vec3.smul]
  · simp only [proximityInfluenceOf, zero_div, Real.rpow_zero]
    split_ifs with h
    · ring
    · rfl

/-- C3 (witness): the amended theorem at two coincident concrete
anchors. -/
theorem coincident_direction_zero_witness :
    ∃ r, ((calculateProximityPhysics [⟨1, 2, 3⟩, ⟨1, 2, 3⟩] coincParams).getD 0 []).getD 1
        none = some r ∧
      r.distance = 0 ∧ r.direction = ⟨0, 0, 0⟩ ∧ r.forceVector = ⟨0, 0, 0⟩ ∧
      r.influence =
        (if 0 < coincParams.proximityThreshold then coincParams.proximityInfluence else 0) :=
  coincident_direction_zero [⟨1, 2, 3⟩, ⟨1, 2, 3⟩] coincParams 0 1
    (by norm_num) (by norm_num) (by norm_num) rfl

lemma Vec3.lerpV_zero (a b : Vec3) : a.lerpV b 0 = a := by
  simp [Vec3.lerpV]

lemma Vec3.lerpV_one (a b : Vec3) : a.lerpV b 1 = b := by
  simp only [Vec3.lerpV, mul_one]
  cases b
  simp only [Vec3.mk.injEq]
  refine ⟨by ring, by ring, by ring⟩

lemma calculateBlendingFactor_zero (params : FluidDynamicsParameters) :
    calculateBlendingFactor 0 params = 0 := by
  norm_num [calculateBlendingFactor]

lemma calculateBlendingFactor_one (params : FluidDynamicsParameters) :
    calculateBlendingFactor 1 params = 1 := by
  norm_num [calculateBlendingFactor]

lemma easeInOutCubic_zero : easeInOutCubic 0 = 0 := by
  norm_num [easeInOutCubic]

lemma easeInOutCubic_one : easeInOutCubic 1 = 1 := by
  norm_num [easeInOutCubic]

lemma map_range_fetch (l : List Vec3) :
    (List.range l.length).map (fun i => fetchVertex l l.length i) = l := by
  apply List.ext_getElem
  · simp
  · intro n h1 h2
    simp only [List.getElem_map, List.getElem_range]
    have hn : n < l.length := by simpa using h2
    rw [fetchVertex, if_pos hn]
    exact List.getD_eq_getElem _ _ _

/-- C4 (counterexample): the endpoint law `blend(A, B, 0, params) ≈ A`
fails for general parameter records: with one smoothing iteration each
vertex is pulled 10% toward the A/B midpoint, so for `A = [(0,0,0)]`,
`B = [(100,0,0)]` the result at `progress = 0` is `[(5,0,0)]`, at
per-vertex displacement 5 ≥ 0.5 from A. -/
theorem blend_endpoint_counterexample :
    performFluidBlending [⟨0, 0, 0⟩] [⟨100, 0, 0⟩] 0 cexParams = [⟨5, 0, 0⟩] ∧
      ¬ Vec3.distanceTo ⟨5, 0, 0⟩ ⟨0, 0, 0⟩ < 0.5 := by
  constructor
  · rw [show performFluidBlending [⟨0, 0, 0⟩] [⟨100, 0, 0⟩] 0 cexParams =
        [smoothPass (Vec3.lerpV ⟨0, 0, 0⟩ ⟨100, 0, 0⟩
          (easeInOutCubic (calculateBlendingFactor 0 cexParams) *
            cexParams.blendingIntensity)) ⟨100, 0, 0⟩] from rfl]
    rw [calculateBlendingFactor_zero, easeInOutCubic_zero]
    simp only [smoothPass, Vec3.lerpV, Vec3.add, Vec3.smul, cexParams, zero_mul]
    norm_num
  · have hd : Vec3.distanceTo ⟨5, 0, 0⟩ ⟨0, 0, 0⟩ = 5 := by
      simp only [Vec3.distanceTo, Vec3.sub, Vec3.length]
      rw [show ((5 : ℝ) - 0) * (5 - 0) + (0 - 0) * (0 - 0) + (0 - 0) * (0 - 0) =
        5 ^ 2 by norm_num]
      rw [Real.sqrt_sq (by norm_num : (0 : ℝ) ≤ 5)]
    rw [hd]; norm_num

/-- C4 (amended): for equal-length buffers the endpoint laws hold
exactly (displacement 0 < 0.5) when `blendingIntensity = 1` and
`smoothingIterations = 0`; with smoothing iterations or a non-unit
intensity they fail (see `blend_endpoint_counterexample`). -/
theorem blend_endpoints_exact (A B : List Vec3) (params : FluidDynamicsParameters)
    (hlen : A.length = B.length) (hsm : params.smoothingIterations = 0)
    (hbi : params.blendingIntensity = 1) :
    performFluidBlending A B 0 params = A ∧ performFluidBlending A B 1 params = B := by
  have hmaxA : max A.length B.length = A.length := by rw [hlen, max_self]
  have hmaxB : max A.length B.length = B.length := by rw [hlen, max_self]
  constructor
  · simp only [performFluidBlending, hmaxA, hsm, hbi, calculateBlendingFactor_zero,
      easeInOutCubic_zero, zero_mul, Vec3.lerpV_zero, smoothIter]
    exact map_range_fetch A
  · simp only [performFluidBlending, hmaxB, hsm, hbi, calculateBlendingFactor_one,
      easeInOutCubic_one, one_mul, Vec3.lerpV_one, smoothIter]
    exact map_range_fetch B

/-- C4 (witness): the amended endpoint laws at concrete one-vertex
buffers with `endpointParams`. -/
theorem blend_endpoints_exact_witness :
    performFluidBlending [⟨1, 2, 3⟩] [⟨4, 5, 6⟩] 0 endpointParams = [⟨1, 2, 3⟩] ∧
      performFluidBlending [⟨1, 2, 3⟩] [⟨4, 5, 6⟩] 1 endpointParams = [⟨4, 5, 6⟩] :=
  blend_endpoints_exact [⟨1, 2, 3⟩] [⟨4, 5, 6⟩] endpointParams rfl rfl rfl

lemma Vec3.normalize_abs_comp (v : Vec3) :
    |v.normalize.x| ≤ 1 ∧ |v.normalize.y| ≤ 1 ∧ |v.normalize.z| ≤ 1 := by
  by_cases h : v.length = 0
  · have h0 : (0 : ℝ) ≤ v.x * v.x + v.y * v.y + v.z * v.z :=
      add_nonneg (add_nonneg (mul_self_nonneg _) (mul_self_nonneg _)) (mul_self_nonneg _)
    have hsum : v.x * v.x + v.y * v.y + v.z * v.z = 0 := by
      have := (Real.sqrt_eq_zero h0).mp h
      simpa [Vec3.length] using this
    have hx : v.x = 0 := by
      have : v.x * v.x = 0 := by nlinarith [mul_self_nonneg v.y, mul_self_nonneg v.z]
      exact mul_self_eq_zero.mp this
    have hy : v.y = 0 := by
      have : v.y * v.y = 0 := by nlinarith [mul_self_nonneg v.x, mul_self_nonneg v.z]
      exact mul_self_eq_zero.mp this
    have hz : v.z = 0 := by
      have : v.z * v.z = 0 := by nlinarith [mul_self_nonneg v.x, mul_self_nonneg v.y]
      exact mul_self_eq_zero.mp this
    simp [Vec3.normalize, Vec3.smul, hx, hy, hz]
  · have hpos : 0 < v.length := lt_of_le_of_ne (Real.sqrt_nonneg _) (Ne.symm h)
    have key : ∀ w : ℝ, w * w ≤ v.x * v.x + v.y * v.y + v.z * v.z → |w * (1 / v.length)| ≤ 1 := by
      intro w hw
      have hb : |w| ≤ v.length := by
        calc |w| = Real.sqrt (w * w) := (Real.sqrt_mul_self_eq_abs _).symm
          _ ≤ v.length := Real.sqrt_le_sqrt hw
      rw [abs_mul, abs_of_pos (by positivity : (0 : ℝ) < 1 / v.length), mul_one_div,
        div_le_one hpos]
      exact hb
    simp only [Vec3.normalize, if_neg h, Vec3.smul]
    exact ⟨key v.x (by nlinarith [mul_self_nonneg v.y, mul_self_nonneg v.z]),
      key v.y (by nlinarith [mul_self_nonneg v.x, mul_self_nonneg v.z]),
      key v.z (by nlinarith [mul_self_nonneg v.x, mul_self_nonneg v.y])⟩

lemma interactionStep_diff {dd : ℝ} (hdd : 0 ≤ dd) (p : Vec3) (ov : Option Vec3) :
    |(interactionStep dd p ov).x - p.x| ≤ 0.2 * dd ∧
      |(interactionStep dd p ov).y - p.y| ≤ 0.2 * dd ∧
      |(interactionStep dd p ov).z - p.z| ≤ 0.2 * dd := by
  match ov with
  | none =>
    simp only [interactionStep, sub_self, abs_zero]
    refine ⟨by positivity, by positivity, by positivity⟩
  | some vec =>
    simp only [interactionStep]
    split_ifs with hv
    · have hd0 : 0 ≤ p.distanceTo vec := distanceTo_nonneg p vec
      have hinf0 : 0 ≤ Real.exp (-(p.distanceTo vec) * 0.5) * dd :=
        mul_nonneg (Real.exp_pos _).le hdd
      have hinf1 : Real.exp (-(p.distanceTo vec) * 0.5) * dd ≤ dd := by
        have h1 : Real.exp (-(p.distanceTo vec) * 0.5) ≤ 1 :=
          Real.exp_le_one_iff.mpr (by nlinarith)
        nlinarith [Real.exp_pos (-(p.distanceTo vec) * 0.5)]
      have hn := Vec3.normalize_abs_comp (vec.sub p)
      simp only [Vec3.add, Vec3.smul, add_sub_cancel_left]
      refine ⟨?_, ?_, ?_⟩ <;>
        · rw [abs_mul, abs_of_nonneg (mul_nonneg hinf0 (by norm_num) :
            0 ≤ Real.exp (-(p.distanceTo vec) * 0.5) * dd * 0.2)]
          nlinarith [hn.1, hn.2.1, hn.2.2, abs_nonneg (vec.sub p).normalize.x,
            abs_nonneg (vec.sub p).normalize.y, abs_nonneg (vec.sub p).normalize.z]
    · simp only [sub_self, abs_zero]
      refine ⟨by positivity, by positivity, by positivity⟩

lemma foldl_interaction_diff {dd : ℝ} (hdd : 0 ≤ dd) :
    ∀ (l : List (Option Vec3)) (p : Vec3),
      |(l.foldl (interactionStep dd) p).x - p.x| ≤ 0.2 * dd * l.length ∧
        |(l.foldl (interactionStep dd) p).y - p.y| ≤ 0.2 * dd * l.length ∧
        |(l.foldl (interactionStep dd) p).z - p.z| ≤ 0.2 * dd * l.length := by
  intro l
  induction l with
  | nil => intro p; simp
  | cons ov rest ih =>
    intro p
    simp only [List.foldl_cons, List.length_cons]
    obtain ⟨h1x, h1y, h1z⟩ := interactionStep_diff hdd p ov
    obtain ⟨h2x, h2y, h2z⟩ := ih (interactionStep dd p ov)
    push_cast
    refine ⟨?_, ?_, ?_⟩
    · calc |(rest.foldl (interactionStep dd) (interactionStep dd p ov)).x - p.x| ≤
            |(rest.foldl (interactionStep dd) (interactionStep dd p ov)).x -
              (interactionStep dd p ov).x| + |(interactionStep dd p ov).x - p.x| :=
          abs_sub_le _ _ _
        _ ≤ 0.2 * dd * rest.length + 0.2 * dd := add_le_add h2x h1x
        _ = 0.2 * dd * (rest.length + 1) := by ring
    · calc |(rest.foldl (interactionStep dd) (interactionStep dd p ov)).y - p.y| ≤
            |(rest.foldl (interactionStep dd) (interactionStep dd p ov)).y -
              (interactionStep dd p ov).y| + |(interactionStep dd p ov).y - p.y| :=
          abs_sub_le _ _ _
        _ ≤ 0.2 * dd * rest.length + 0.2 * dd := add_le_add h2y h1y
        _ = 0.2 * dd * (rest.length + 1) := by ring
    · calc |(rest.foldl (interactionStep dd) (interactionStep dd p ov)).z - p.z| ≤
            |(rest.foldl (interactionStep dd) (interactionStep dd p ov)).z -
              (interactionStep dd p ov).z| + |(interactionStep dd p ov).z - p.z| :=
          abs_sub_le _ _ _
        _ ≤ 0.2 * dd * rest.length + 0.2 * dd := add_le_add h2z h1z
        _ = 0.2 * dd * (rest.length + 1) := by ring

lemma baseKleinPoint_comp (u v s : ℝ) :
    |(baseKleinPoint u v s).x| ≤ 4 * |s| ∧ |(baseKleinPoint u v s).y| ≤ 4 * |s| ∧
      |(baseKleinPoint u v s).z| ≤ 4 * |s| := by
  have ha : |Real.cos (u / 2) * Real.sin v| ≤ 1 := by
    rw [abs_mul]
    exact mul_le_one₀ (Real.abs_cos_le_one _) (abs_nonneg _) (Real.abs_sin_le_one _)
  have hb : |Real.sin (u / 2) * Real.sin (2 * v)| ≤ 1 := by
    rw [abs_mul]
    exact mul_le_one₀ (Real.abs_sin_le_one _) (abs_nonneg _) (Real.abs_sin_le_one _)
  have hinner : |2 + Real.cos (u / 2) * Real.sin v - Real.sin (u / 2) * Real.sin (2 * v)| ≤ 4 := by
    rw [abs_le] at ha hb ⊢
    constructor <;> linarith
  have hinnz : |Real.sin (u / 2) * Real.sin v + Real.cos (u / 2) * Real.sin (2 * v)| ≤ 4 := by
    have ha2 : |Real.sin (u / 2) * Real.sin v| ≤ 1 := by
      rw [abs_mul]
      exact mul_le_one₀ (Real.abs_sin_le_one _) (abs_nonneg _) (Real.abs_sin_le_one _)
    have hb2 : |Real.cos (u / 2) * Real.sin (2 * v)| ≤ 1 := by
      rw [abs_mul]
      exact mul_le_one₀ (Real.abs_cos_le_one _) (abs_nonneg _) (Real.abs_sin_le_one _)
    rw [abs_le] at ha2 hb2 ⊢
    constructor <;> linarith
  simp only [baseKleinPoint]
  refine ⟨?_, ?_, ?_⟩
  · rw [abs_mul, abs_mul]
    have step : |2 + Real.cos (u / 2) * Real.sin v - Real.sin (u / 2) * Real.sin (2 * v)| *
        |Real.cos u| ≤ 4 * 1 :=
      mul_le_mul hinner (Real.abs_cos_le_one u) (abs_nonneg _) (by norm_num)
    calc |2 + Real.cos (u / 2) * Real.sin v - Real.sin (u / 2) * Real.sin (2 * v)| *
          |Real.cos u| * |s| ≤ 4 * 1 * |s| :=
        mul_le_mul_of_nonneg_right step (abs_nonneg s)
      _ = 4 * |s| := by ring
  · rw [abs_mul, abs_mul]
    have step : |2 + Real.cos (u / 2) * Real.sin v - Real.sin (u / 2) * Real.sin (2 * v)| *
        |Real.sin u| ≤ 4 * 1 :=
      mul_le_mul hinner (Real.abs_sin_le_one u) (abs_nonneg _) (by norm_num)
    calc |2 + Real.cos (u / 2) * Real.sin v - Real.sin (u / 2) * Real.sin (2 * v)| *
          |Real.sin u| * |s| ≤ 4 * 1 * |s| :=
        mul_le_mul_of_nonneg_right step (abs_nonneg s)
      _ = 4 * |s| := by ring
  · rw [abs_mul]
    exact mul_le_mul_of_nonneg_right hinnz (abs_nonneg s)

lemma rotateXY_comp {p : Vec3} {c : ℝ} (r : ℝ) (hx : |p.x| ≤ c) (hy : |p.y| ≤ c)
    (hz : |p.z| ≤ c) :
    |(rotateXY p r).x| ≤ 2 * c ∧ |(rotateXY p r).y| ≤ 2 * c ∧
      |(rotateXY p r).z| ≤ 2 * c := by
  have hc : 0 ≤ c := le_trans (abs_nonneg _) hx
  simp only [rotateXY]
  split_ifs with h
  · refine ⟨?_, ?_, by simpa using by linarith⟩
    · calc |p.x * Real.cos r - p.y * Real.sin r| ≤
            |p.x * Real.cos r| + |p.y * Real.sin r| := abs_sub _ _
        _ ≤ 2 * c := by
            rw [abs_mul, abs_mul]
            nlinarith [Real.abs_cos_le_one r, Real.abs_sin_le_one r,
              abs_nonneg p.x, abs_nonneg p.y]
    · calc |p.x * Real.sin r + p.y * Real.cos r| ≤
            |p.x * Real.sin r| + |p.y * Real.cos r| := abs_add _ _
        _ ≤ 2 * c := by
            rw [abs_mul, abs_mul]
            nlinarith [Real.abs_cos_le_one r, Real.abs_sin_le_one r,
              abs_nonneg p.x, abs_nonneg p.y]
  · exact ⟨by linarith, by linarith, by linarith⟩

lemma bulgingStep_ge {intensity : ℝ} (hdd : 0 ≤ intensity) (p : Vec3) (a : ℝ)
    (ov : Option Vec3) : a ≤ bulgingStep p intensity a ov := by
  match ov with
  | none => exact le_rfl
  | some vec =>
    simp only [bulgingStep]
    split_ifs with hv
    · nlinarith [Real.exp_pos (-(p.distanceTo vec) * 2)]
    · exact le_rfl

lemma bulging_fold_nonneg {intensity : ℝ} (hdd : 0 ≤ intensity) (p : Vec3) :
    ∀ (l : List (Option Vec3)) (a : ℝ), 0 ≤ a →
      0 ≤ l.foldl (bulgingStep p intensity) a := by
  intro l
  induction l with
  | nil => intro a ha; simpa using ha
  | cons ov rest ih =>
    intro a ha
    exact ih _ (le_trans ha (bulgingStep_ge hdd p a ov))

lemma calculateLocalBulging_bounds {intensity : ℝ} (hdd : 0 ≤ intensity) (p : Vec3)
    (vecs : List (Option Vec3)) :
    0 ≤ calculateLocalBulging p vecs intensity ∧
      calculateLocalBulging p vecs intensity ≤ 0.3 * intensity := by
  constructor
  · exact le_min (bulging_fold_nonneg hdd p vecs 0 le_rfl) (by positivity)
  · calc calculateLocalBulging p vecs intensity ≤ intensity * 0.3 := min_le_right _ _
      _ = 0.3 * intensity := by ring

lemma distanceTo_le_of_comp (a b : Vec3) (D : ℝ) (hD : 0 ≤ D)
    (hx : |a.x - b.x| ≤ D) (hy : |a.y - b.y| ≤ D) (hz : |a.z - b.z| ≤ D) :
    a.distanceTo b ≤ 2 * D := by
  simp only [Vec3.distanceTo, Vec3.sub, Vec3.length]
  have h1 : (a.x - b.x) * (a.x - b.x) + (a.y - b.y) * (a.y - b.y) +
      (a.z - b.z) * (a.z - b.z) ≤ (2 * D) ^ 2 := by
    have hxx := mul_self_le_mul_self (abs_nonneg (a.x - b.x)) hx
    have hyy := mul_self_le_mul_self (abs_nonneg (a.y - b.y)) hy
    have hzz := mul_self_le_mul_self (abs_nonneg (a.z - b.z)) hz
    rw [abs_mul_abs_self] at hxx hyy hzz
    nlinarith [sq_nonneg D]
  calc Real.sqrt ((a.x - b.x) * (a.x - b.x) + (a.y - b.y) * (a.y - b.y) +
        (a.z - b.z) * (a.z - b.z)) ≤ Real.sqrt ((2 * D) ^ 2) := Real.sqrt_le_sqrt h1
    _ = 2 * D := Real.sqrt_sq (by linarith)

lemma abs_mul_mul_le {t dd c T : ℝ} (hdd : 0 ≤ dd) (hc : 0 ≤ c) (ht : |t| ≤ T) :
    |t * dd * c| ≤ T * c * dd := by
  rw [abs_mul, abs_mul, abs_of_nonneg hdd, abs_of_nonneg hc]
  calc |t| * dd * c ≤ T * dd * c :=
      mul_le_mul_of_nonneg_right (mul_le_mul_of_nonneg_right ht hdd) hc
    _ = T * c * dd := by ring

lemma stageSine_diff (params : KleinBottleSurfaceParams)
    (hdd : 0 ≤ params.dynamic_deform) (p : Vec3) :
    |(stageSine params p).x - p.x| ≤ 0.3 * params.dynamic_deform ∧
      |(stageSine params p).y - p.y| ≤ 0.3 * params.dynamic_deform ∧
      |(stageSine params p).z - p.z| ≤ 0.3 * params.dynamic_deform := by
  simp only [stageSine]
  split_ifs with h
  · simp only [Vec3.add, add_sub_cancel_left]
    refine ⟨?_, ?_, ?_⟩
    · have := abs_mul_mul_le hdd (by norm_num : (0 : ℝ) ≤ 0.3)
        (Real.abs_sin_le_one (params.u * 3 + params.time * 2))
      linarith
    · have := abs_mul_mul_le hdd (by norm_num : (0 : ℝ) ≤ 0.3)
        (Real.abs_cos_le_one (params.v * 2 + params.time * 1.5))
      linarith
    · have := abs_mul_mul_le hdd (by norm_num : (0 : ℝ) ≤ 0.2)
        (Real.abs_sin_le_one (params.u + params.v + params.time))
      nlinarith
  · simp only [sub_self, abs_zero]
    refine ⟨by nlinarith, by nlinarith, by nlinarith⟩

lemma stageInteraction_diff (params : KleinBottleSurfaceParams)
    (hdd : 0 ≤ params.dynamic_deform) (p : Vec3) :
    |(stageInteraction params p).x - p.x| ≤
        0.2 * params.dynamic_deform * params.interaction_vecs.length ∧
      |(stageInteraction params p).y - p.y| ≤
        0.2 * params.dynamic_deform * params.interaction_vecs.length ∧
      |(stageInteraction params p).z - p.z| ≤
        0.2 * params.dynamic_deform * params.interaction_vecs.length := by
  simp only [stageInteraction]
  exact foldl_interaction_diff hdd params.interaction_vecs p

lemma stageBulge_diff (params : KleinBottleSurfaceParams)
    (hdd : 0 ≤ params.dynamic_deform) (p : Vec3) {M : ℝ}
    (hx : |p.x| ≤ M) (hy : |p.y| ≤ M) (hz : |p.z| ≤ M) :
    |(stageBulge params p).x - p.x| ≤ M * (0.3 * params.dynamic_deform) ∧
      |(stageBulge params p).y - p.y| ≤ M * (0.3 * params.dynamic_deform) ∧
      |(stageBulge params p).z - p.z| ≤ M * (0.3 * params.dynamic_deform) := by
  obtain ⟨hb0, hb1⟩ := calculateLocalBulging_bounds hdd p params.interaction_vecs
  have hM : 0 ≤ M := le_trans (abs_nonneg _) hx
  simp only [stageBulge, Vec3.smul]
  refine ⟨?_, ?_, ?_⟩
  · rw [show p.x * (1 + calculateLocalBulging p params.interaction_vecs
        params.dynamic_deform) - p.x =
      p.x * calculateLocalBulging p params.interaction_vecs params.dynamic_deform
      from by ring, abs_mul, abs_of_nonneg hb0]
    exact mul_le_mul hx hb1 hb0 hM
  · rw [show p.y * (1 + calculateLocalBulging p params.interaction_vecs
        params.dynamic_deform) - p.y =
      p.y * calculateLocalBulging p params.interaction_vecs params.dynamic_deform
      from by ring, abs_mul, abs_of_nonneg hb0]
    exact mul_le_mul hy hb1 hb0 hM
  · rw [show p.z * (1 + calculateLocalBulging p params.interaction_vecs
        params.dynamic_deform) - p.z =
      p.z * calculateLocalBulging p params.interaction_vecs params.dynamic_deform
      from by ring, abs_mul, abs_of_nonneg hb0]
    exact mul_le_mul hz hb1 hb0 hM

lemma stageTension_diff (params : KleinBottleSurfaceParams)
    (hts : 0 ≤ params.tension_scalar) (p : Vec3) :
    |(stageTension params p).x - p.x| ≤ 0.1 * params.tension_scalar ∧
      |(stageTension params p).y - p.y| ≤ 0.1 * params.tension_scalar ∧
      |(stageTension params p).z - p.z| ≤ 0.1 * params.tension_scalar := by
  simp only [stageTension]
  split_ifs with h
  · simp only [Vec3.add, add_sub_cancel_left, add_zero, sub_self, abs_zero]
    refine ⟨?_, ?_, by nlinarith⟩
    · have := abs_mul_mul_le hts (by norm_num : (0 : ℝ) ≤ 0.1)
        (Real.abs_sin_le_one params.u)
      linarith
    · have := abs_mul_mul_le hts (by norm_num : (0 : ℝ) ≤ 0.1)
        (Real.abs_cos_le_one params.v)
      linarith
  · simp only [sub_self, abs_zero]
    refine ⟨by nlinarith, by nlinarith, by nlinarith⟩

lemma stageNoise_diff (pt : ℕ → ℕ) (params : KleinBottleSurfaceParams)
    (hdd : 0 ≤ params.dynamic_deform) (p : Vec3) :
    |(stageNoise pt params p).x - p.x| ≤ 0.8 * params.dynamic_deform ∧
      |(stageNoise pt params p).y - p.y| ≤ 0.8 * params.dynamic_deform ∧
      |(stageNoise pt params p).z - p.z| ≤ 0.8 * params.dynamic_deform := by
  simp only [stageNoise, Vec3.add, add_sub_cancel_left]
  refine ⟨?_, ?_, ?_⟩
  · have := abs_mul_mul_le hdd (by norm_num : (0 : ℝ) ≤ 0.4)
      (abs_noise3D_le_two pt ((p.x + params.noiseOffset.x) * 0.5)
        ((p.y + params.noiseOffset.y) * 0.5)
        ((p.z + params.noiseOffset.z) * 0.5 + params.time * 0.3))
    linarith
  · have := abs_mul_mul_le hdd (by norm_num : (0 : ℝ) ≤ 0.3)
      (abs_noise3D_le_two pt (p.x * 0.3) (p.y * 0.3) (params.time * 0.5))
    nlinarith
  · have := abs_mul_mul_le hdd (by norm_num : (0 : ℝ) ≤ 0.2)
      (abs_noise3D_le_two pt (p.z * 0.4) (params.time * 0.4) (p.x * 0.2))
    nlinarith

lemma stageWiggle_diff (params : KleinBottleSurfaceParams)
    (hdd : 0 ≤ params.dynamic_deform) (p : Vec3) :
    |(stageWiggle params p).x - p.x| ≤ 0.2 * params.dynamic_deform ∧
      |(stageWiggle params p).y - p.y| ≤ 0.2 * params.dynamic_deform ∧
      |(stageWiggle params p).z - p.z| ≤ 0.2 * params.dynamic_deform := by
  simp only [stageWiggle, Vec3.add, add_sub_cancel_left]
  refine ⟨?_, ?_, ?_⟩
  · have := abs_mul_mul_le hdd (by norm_num : (0 : ℝ) ≤ 0.2)
      (Real.abs_sin_le_one (params.wigglePhase + params.time * 3))
    linarith
  · have := abs_mul_mul_le hdd (by norm_num : (0 : ℝ) ≤ 0.2)
      (Real.abs_cos_le_one (params.wigglePhase * 1.3 + params.time * 2.5))
    linarith
  · have := abs_mul_mul_le hdd (by norm_num : (0 : ℝ) ≤ 0.15)
      (Real.abs_sin_le_one (params.wigglePhase * 0.7 + params.time * 1.8))
    nlinarith

lemma stageBase_comp (params : KleinBottleSurfaceParams) :
    |(stageBase params).x| ≤ 8 * |params.scale| ∧
      |(stageBase params).y| ≤ 8 * |params.scale| ∧
      |(stageBase params).z| ≤ 8 * |params.scale| := by
  obtain ⟨hb1, hb2, hb3⟩ := baseKleinPoint_comp params.u params.v params.scale
  obtain ⟨h1, h2, h3⟩ := rotateXY_comp params.rotationAngle hb1 hb2 hb3
  simp only [stageBase]
  refine ⟨by linarith, by linarith, by linarith⟩

lemma deformBound_nonneg (params : KleinBottleSurfaceParams)
    (hdd : 0 ≤ params.dynamic_deform) (hts : 0 ≤ params.tension_scalar) :
    0 ≤ deformBound params := by
  have hk : (0 : ℝ) ≤ params.interaction_vecs.length := Nat.cast_nonneg _
  have hs : (0 : ℝ) ≤ |params.scale| := abs_nonneg _
  simp only [deformBound]
  have h1 : (0 : ℝ) ≤ 0.2 * params.dynamic_deform * params.interaction_vecs.length := by
    positivity
  nlinarith [mul_nonneg (by linarith : (0 : ℝ) ≤ 8 * |params.scale| +
      0.3 * params.dynamic_deform +
      0.2 * params.dynamic_deform * params.interaction_vecs.length)
    (by linarith : (0 : ℝ) ≤ 0.3 * params.dynamic_deform)]

/-- Componentwise displacement bound of the full pipeline against the
undeformed base point: each coordinate moves by at most
`deformBound params`, which does not involve the time. -/
lemma generateFluid_comp_diff (pt : ℕ → ℕ) (params : KleinBottleSurfaceParams)
    (hdd : 0 ≤ params.dynamic_deform) (hts : 0 ≤ params.tension_scalar) :
    |(generateFluidKleinBottleSurface pt params).x - (baseSurfacePoint params).x| ≤
        deformBound params ∧
      |(generateFluidKleinBottleSurface pt params).y - (baseSurfacePoint params).y| ≤
        deformBound params ∧
      |(generateFluidKleinBottleSurface pt params).z - (baseSurfacePoint params).z| ≤
        deformBound params := by
  obtain ⟨h0x, h0y, h0z⟩ := stageBase_comp params
  obtain ⟨d1x, d1y, d1z⟩ := stageSine_diff params hdd (stageBase params)
  obtain ⟨d2x, d2y, d2z⟩ := stageInteraction_diff params hdd
    (stageSine params (stageBase params))
  have hMx : |(stageInteraction params (stageSine params (stageBase params))).x| ≤
      8 * |params.scale| + 0.3 * params.dynamic_deform +
        0.2 * params.dynamic_deform * params.interaction_vecs.length := by
    have t1 := abs_sub_le (stageInteraction params (stageSine params (stageBase params))).x
      (stageSine params (stageBase params)).x (stageBase params).x
    have t2 := abs_sub_abs_le_abs_sub
      (stageInteraction params (stageSine params (stageBase params))).x
      (stageBase params).x
    have t3 := abs_add ((stageInteraction params (stageSine params (stageBase params))).x -
      (stageBase params).x) (stageBase params).x
    calc |(stageInteraction params (stageSine params (stageBase params))).x| =
        |((stageInteraction params (stageSine params (stageBase params))).x -
          (stageBase params).x) + (stageBase params).x| := by ring_nf
      _ ≤ |(stageInteraction params (stageSine params (stageBase params))).x -
          (stageBase params).x| + |(stageBase params).x| := abs_add _ _
      _ ≤ _ := by linarith
  have hMy : |(stageInteraction params (stageSine params (stageBase params))).y| ≤
      8 * |params.scale| + 0.3 * params.dynamic_deform +
        0.2 * params.dynamic_deform * params.interaction_vecs.length := by
    have t1 := abs_sub_le (stageInteraction params (stageSine params (stageBase params))).y
      (stageSine params (stageBase params)).y (stageBase params).y
    calc |(stageInteraction params (stageSine params (stageBase params))).y| =
        |((stageInteraction params (stageSine params (stageBase params))).y -
          (stageBase params).y) + (stageBase params).y| := by ring_nf
      _ ≤ |(stageInteraction params (stageSine params (stageBase params))).y -
          (stageBase params).y| + |(stageBase params).y| := abs_add _ _
      _ ≤ _ := by linarith
  have hMz : |(stageInteraction params (stageSine params (stageBase params))).z| ≤
      8 * |params.scale| + 0.3 * params.dynamic_deform +
        0.2 * params.dynamic_deform * params.interaction_vecs.length := by
    have t1 := abs_sub_le (stageInteraction params (stageSine params (stageBase params))).z
      (stageSine params (stageBase params)).z (stageBase params).z
    calc |(stageInteraction params (stageSine params (stageBase params))).z| =
        |((stageInteraction params (stageSine params (stageBase params))).z -
          (stageBase params).z) + (stageBase params).z| := by ring_nf
      _ ≤ |(stageInteraction params (stageSine params (stageBase params))).z -
          (stageBase params).z| + |(stageBase params).z| := abs_add _ _
      _ ≤ _ := by linarith
  obtain ⟨d3x, d3y, d3z⟩ := stageBulge_diff params hdd
    (stageInteraction params (stageSine params (stageBase params))) hMx hMy hMz
  obtain ⟨d4x, d4y, d4z⟩ := stageTension_diff params hts
    (stageBulge params (stageInteraction params (stageSine params (stageBase params))))
  obtain ⟨d5x, d5y, d5z⟩ := stageNoise_diff pt params hdd
    (stageTension params (stageBulge params (stageInteraction params
      (stageSine params (stageBase params)))))
  obtain ⟨d6x, d6y, d6z⟩ := stageWiggle_diff params hdd
    (stageNoise pt params (stageTension params (stageBulge params
      (stageInteraction params (stageSine params (stageBase params))))))
  simp only [generateFluidKleinBottleSurface, baseSurfacePoint, Vec3.add,
    add_sub_add_right_eq_sub]
  refine ⟨?_, ?_, ?_⟩
  · have c1 := abs_sub_le (stageWiggle params (stageNoise pt params (stageTension params
      (stageBulge params (stageInteraction params (stageSine params
        (stageBase params))))))).x
      (stageNoise pt params (stageTension params (stageBulge params (stageInteraction params
        (stageSine params (stageBase params)))))).x (stageBase params).x
    have c2 := abs_sub_le (stageNoise pt params (stageTension params (stageBulge params
      (stageInteraction params (stageSine params (stageBase params)))))).x
      (stageTension params (stageBulge params (stageInteraction params (stageSine params
        (stageBase params))))).x (stageBase params).x
    have c3 := abs_sub_le (stageTension params (stageBulge params (stageInteraction params
      (stageSine params (stageBase params))))).x
      (stageBulge params (stageInteraction params (stageSine params
        (stageBase params)))).x (stageBase params).x
    have c4 := abs_sub_le (stageBulge params (stageInteraction params (stageSine params
      (stageBase params)))).x
      (stageInteraction params (stageSine params (stageBase params))).x
      (stageBase params).x
    have c5 := abs_sub_le (stageInteraction params (stageSine params (stageBase params))).x
      (stageSine params (stageBase params)).x (stageBase params).x
    simp only [deformBound]
    linarith
  · have c1 := abs_sub_le (stageWiggle params (stageNoise pt params (stageTension params
      (stageBulge params (stageInteraction params (stageSine params
        (stageBase params))))))).y
      (stageNoise pt params (stageTension params (stageBulge params (stageInteraction params
        (stageSine params (stageBase params)))))).y (stageBase params).y
    have c2 := abs_sub_le (stageNoise pt params (stageTension params (stageBulge params
      (stageInteraction params (stageSine params (stageBase params)))))).y
      (stageTension params (stageBulge params (stageInteraction params (stageSine params
        (stageBase params))))).y (stageBase params).y
    have c3 := abs_sub_le (stageTension params (stageBulge params (stageInteraction params
      (stageSine params (stageBase params))))).y
      (stageBulge params (stageInteraction params (stageSine params
        (stageBase params)))).y (stageBase params).y
    have c4 := abs_sub_le (stageBulge params (stageInteraction params (stageSine params
      (stageBase params)))).y
      (stageInteraction params (stageSine params (stageBase params))).y
      (stageBase params).y
    have c5 := abs_sub_le (stageInteraction params (stageSine params (stageBase params))).y
      (stageSine params (stageBase params)).y (stageBase params).y
    simp only [deformBound]
    linarith
  · have c1 := abs_sub_le (stageWiggle params (stageNoise pt params (stageTension params
      (stageBulge params (stageInteraction params (stageSine params
        (stageBase params))))))).z
      (stageNoise pt params (stageTension params (stageBulge params (stageInteraction params
        (stageSine params (stageBase params)))))).z (stageBase params).z
    have c2 := abs_sub_le (stageNoise pt params (stageTension params (stageBulge params
      (stageInteraction params (stageSine params (stageBase params)))))).z
      (stageTension params (stageBulge params (stageInteraction params (stageSine params
        (stageBase params))))).z (stageBase params).z
    have c3 := abs_sub_le (stageTension params (stageBulge params (stageInteraction params
      (stageSine params (stageBase params))))).z
      (stageBulge params (stageInteraction params (stageSine params
        (stageBase params)))).z (stageBase params).z
    have c4 := abs_sub_le (stageBulge params (stageInteraction params (stageSine params
      (stageBase params)))).z
      (stageInteraction params (stageSine params (stageBase params))).z
      (stageBase params).z
    have c5 := abs_sub_le (stageInteraction params (stageSine params (stageBase params))).z
      (stageSine params (stageBase params)).z (stageBase params).z
    simp only [deformBound]
    linarith

lemma interactionStep_zero (p : Vec3) (ov : Option Vec3) : interactionStep 0 p ov = p := by
  match ov with
  | none => rfl
  | some vec =>
    simp only [interactionStep]
    split_ifs with h
    · cases p
      simp [Vec3.add, Vec3.smul]
    · rfl

lemma foldl_interactionStep_zero :
    ∀ (l : List (Option Vec3)) (p : Vec3), l.foldl (interactionStep 0) p = p := by
  intro l
  induction l with
  | nil => intro p; rfl
  | cons ov rest ih =>
    intro p
    rw [List.foldl_cons, interactionStep_zero]
    exact ih p

lemma bulgingStep_zero (p : Vec3) (a : ℝ) (ov : Option Vec3) :
    bulgingStep p 0 a ov = a := by
  match ov with
  | none => rfl
  | some vec =>
    simp only [bulgingStep]
    split_ifs with h <;> simp

lemma foldl_bulgingStep_zero (p : Vec3) :
    ∀ (l : List (Option Vec3)) (a : ℝ), l.foldl (bulgingStep p 0) a = a := by
  intro l
  induction l with
  | nil => intro a; rfl
  | cons ov rest ih =>
    intro a
    rw [List.foldl_cons, bulgingStep_zero]
    exact ih a

lemma calculateLocalBulging_zero (p : Vec3) (vecs : List (Option Vec3)) :
    calculateLocalBulging p vecs 0 = 0 := by
  simp [calculateLocalBulging, foldl_bulgingStep_zero]

lemma stageSine_zero (params : KleinBottleSurfaceParams)
    (h0 : params.dynamic_deform = 0) (p : Vec3) : stageSine params p = p := by
  simp [stageSine, h0]

lemma stageInteraction_zero (params : KleinBottleSurfaceParams)
    (h0 : params.dynamic_deform = 0) (p : Vec3) : stageInteraction params p = p := by
  rw [stageInteraction, h0]
  exact foldl_interactionStep_zero _ p

lemma stageBulge_zero (params : KleinBottleSurfaceParams)
    (h0 : params.dynamic_deform = 0) (p : Vec3) : stageBulge params p = p := by
  rw [stageBulge, h0, calculateLocalBulging_zero]
  cases p
  simp [Vec3.smul]

lemma stageTension_zero (params : KleinBottleSurfaceParams)
    (h1 : params.tension_scalar = 0) (p : Vec3) : stageTension params p = p := by
  simp [stageTension, h1]

lemma stageNoise_zero (pt : ℕ → ℕ) (params : KleinBottleSurfaceParams)
    (h0 : params.dynamic_deform = 0) (p : Vec3) : stageNoise pt params p = p := by
  cases p
  simp [stageNoise, h0, Vec3.add]

lemma stageWiggle_zero (params : KleinBottleSurfaceParams)
    (h0 : params.dynamic_deform = 0) (p : Vec3) : stageWiggle params p = p := by
  cases p
  simp [stageWiggle, h0, Vec3.add]

/-- C1: for intensities in `[0,1]` and fixed scale, offset, interaction
vectors and noise offset, the distance between the generated fluid
surface point and the undeformed base point is bounded by a constant
(`2 * deformBound`) independent of the time for all `time ≥ 0`; and with
`dynamic_deform = 0` and `tension_scalar = 0` the generated point equals
the base point exactly (displacement 0). -/
theorem generateFluid_bounded_and_baseline (pt : ℕ → ℕ)
    (params : KleinBottleSurfaceParams)
    (hdd0 : 0 ≤ params.dynamic_deform) (hdd1 : params.dynamic_deform ≤ 1)
    (hts0 : 0 ≤ params.tension_scalar) (hts1 : params.tension_scalar ≤ 1) :
    (∃ C : ℝ, ∀ t : ℝ, 0 ≤ t →
      Vec3.distanceTo (generateFluidKleinBottleSurface pt { params with time := t })
        (baseSurfacePoint params) ≤ C) ∧
    (params.dynamic_deform = 0 → params.tension_scalar = 0 →
      generateFluidKleinBottleSurface pt params = baseSurfacePoint params) := by
  constructor
  · refine ⟨2 * deformBound params, fun t ht => ?_⟩
    have h := generateFluid_comp_diff pt { params with time := t } hdd0 hts0
    have hbase : baseSurfacePoint { params with time := t } = baseSurfacePoint params := rfl
    have hD : deformBound { params with time := t } = deformBound params := rfl
    rw [hbase, hD] at h
    exact distanceTo_le_of_comp _ _ _ (deformBound_nonneg params hdd0 hts0) h.1 h.2.1 h.2.2
  · intro h0 h1
    rw [generateFluidKleinBottleSurface, stageSine_zero params h0,
      stageInteraction_zero params h0, stageBulge_zero params h0,
      stageTension_zero params h1, stageNoise_zero pt params h0,
      stageWiggle_zero params h0, baseSurfacePoint]

/-- C1 (witness): the theorem at the concrete all-zero-intensity
configuration and the concrete permutation table. -/
theorem generateFluid_bounded_and_baseline_witness :
    ((0 : ℝ) ≤ witnessSurfaceParams.dynamic_deform ∧
        witnessSurfaceParams.dynamic_deform ≤ 1 ∧
          (0 : ℝ) ≤ witnessSurfaceParams.tension_scalar ∧
        witnessSurfaceParams.tension_scalar ≤ 1) ∧
      ((∃ C : ℝ, ∀ t : ℝ, 0 ≤ t →
          Vec3.distanceTo (generateFluidKleinBottleSurface permTable
              { witnessSurfaceParams with time := t })
            (baseSurfacePoint witnessSurfaceParams) ≤ C) ∧
        (witnessSurfaceParams.dynamic_deform = 0 →
          witnessSurfaceParams.tension_scalar = 0 →
          generateFluidKleinBottleSurface permTable witnessSurfaceParams =
            baseSurfacePoint witnessSurfaceParams)) :=
  ⟨⟨le_rfl, by norm_num [witnessSurfaceParams], le_rfl,
      by norm_num [witnessSurfaceParams]⟩,
    generateFluid_bounded_and_baseline permTable witnessSurfaceParams le_rfl
      (by norm_num [witnessSurfaceParams]) le_rfl
      (by norm_num [witnessSurfaceParams])⟩

end Baryon
